import Mathlib

/-!
Verification of the MINI_DATA_PLATFORM sales ETL pipeline
(`dags/src`: validation, PII transformation, star-schema loading,
and pipeline orchestration), as a shallow embedding in Lean 4.

Modelling conventions:
* Python floats on monetary/rating columns are modelled as exact
  rationals (`ℚ`); Python `round(x, 2)` / pandas `.round(2)` use
  banker's rounding (round half to even), modelled by `round2`.
* Calendar dates are modelled as integers (a day number); only their
  ordering and equality matter to the code under verification.
* Fallible Python code (exceptions) is modelled with `Except`.
* Wall-clock columns (`created_at` / `updated_at` refreshed with
  `CURRENT_TIMESTAMP` in SQL) are outside the model.
-/

set_option maxRecDepth 8000

namespace MiniDataPlatform

/-! ## Rounding (Python `round(x, 2)` / pandas `.round(2)`, half-to-even) -/

/-- Round a rational to the nearest integer, ties to even
(Python's `round` on floats uses round-half-to-even). -/
def roundHalfEven (q : ℚ) : ℤ :=
  let f : ℤ := ⌊q⌋
  let r : ℚ := q - f
  if r < 1/2 then f
  else if 1/2 < r then f + 1
  else if f % 2 = 0 then f else f + 1

/-- Python `round(x, 2)`: round to two decimal digits, ties to even. -/
def round2 (q : ℚ) : ℚ := (roundHalfEven (q * 100) : ℚ) / 100

/-! ## PII scalar functions (`dags/src/transformation/transformer.py`) -/

/-- Embeds `_redact_phone`: keep only the digits of the input;
with at least 4 digits left, emit the mask followed by the last 4;
otherwise emit the fully masked constant. -/
def redact_phone (phone : String) : String :=
  let digits : List Char := phone.data.filter Char.isDigit
  if digits.length ≥ 4 then
    "***-***-" ++ String.mk (digits.drop (digits.length - 4))
  else
    "***-***-****"

/-- Embeds `_redact_address`: unconditionally replace the address by a
constant placeholder. -/
def redact_address (_address : String) : String := "Address REDACTED"

/-- C6: `_redact_phone` first discards all non-digit characters; with at
least 4 digits remaining the output is the fixed mask `***-***-` followed
by exactly the last 4 digits, and with fewer than 4 digits the output is
the fully masked constant, which retains no input digit. -/
theorem c6_redact_phone_spec (phone : String) :
    (4 ≤ (phone.data.filter Char.isDigit).length →
      ∃ tail : List Char,
        tail.length = 4 ∧
        (∃ head, phone.data.filter Char.isDigit = head ++ tail) ∧
        redact_phone phone = "***-***-" ++ String.mk tail) ∧
    ((phone.data.filter Char.isDigit).length < 4 →
      redact_phone phone = "***-***-****") := by
  constructor
  · intro h
    set ds : List Char := phone.data.filter Char.isDigit with hds
    refine ⟨ds.drop (ds.length - 4), ?_, ⟨ds.take (ds.length - 4), ?_⟩, ?_⟩
    · have : ds.length - (ds.length - 4) = 4 := by omega
      simp [List.length_drop, this]
    · simp [List.take_append_drop]
    · simp only [redact_phone, ← hds]
      rw [if_pos h]
  · intro h
    simp only [redact_phone]
    rw [if_neg (by omega)]

/-- Witness for C6 at concrete inputs: a phone with 10 digits keeps
exactly its last 4 digits after the mask, and a phone with 3 digits is
fully masked. -/
theorem c6_redact_phone_spec_witness :
    (∃ tail : List Char,
        tail.length = 4 ∧
        (∃ head, ("(555) 123-4567".data.filter Char.isDigit) = head ++ tail) ∧
        redact_phone "(555) 123-4567" = "***-***-" ++ String.mk tail) ∧
    redact_phone "1-2-3" = "***-***-****" :=
  ⟨(c6_redact_phone_spec "(555) 123-4567").1 (by decide),
   (c6_redact_phone_spec "1-2-3").2 (by decide)⟩

/-! ## SHA-256 (`hashlib.sha256(...).hexdigest()` used by `_hash_email`)

The standard library's `hashlib.sha256` is embedded in full (FIPS 180-4)
so that `_hash_email` is a genuine executable function of the input
string: 32-bit words are `Nat` values kept below `2 ^ 32` explicitly. -/

/-- Modulus for 32-bit word arithmetic. -/
def M32 : Nat := 4294967296

/-- Right rotation of a 32-bit word. -/
def rotr32 (x n : Nat) : Nat := ((x >>> n) ||| (x <<< (32 - n))) % M32

/-- Bitwise complement of a 32-bit word. -/
def not32 (x : Nat) : Nat := x ^^^ 4294967295

def sha256Ch (x y z : Nat) : Nat := (x &&& y) ^^^ (not32 x &&& z)

def sha256Maj (x y z : Nat) : Nat := (x &&& y) ^^^ (x &&& z) ^^^ (y &&& z)

def bigSigma0 (x : Nat) : Nat := rotr32 x 2 ^^^ rotr32 x 13 ^^^ rotr32 x 22

def bigSigma1 (x : Nat) : Nat := rotr32 x 6 ^^^ rotr32 x 11 ^^^ rotr32 x 25

def smallSigma0 (x : Nat) : Nat := rotr32 x 7 ^^^ rotr32 x 18 ^^^ (x >>> 3)

def smallSigma1 (x : Nat) : Nat := rotr32 x 17 ^^^ rotr32 x 19 ^^^ (x >>> 10)

/-- The 64 SHA-256 round constants of FIPS 180-4, as decimal values. -/
def sha256K : List Nat :=
  [1116352408, 1899447441, 3049323471, 3921009573, 961987163,
   1508970993, 2453635748, 2870763221, 3624381080, 310598401,
   607225278, 1426881987, 1925078388, 2162078206, 2614888103,
   3248222580, 3835390401, 4022224774, 264347078, 604807628,
   770255983, 1249150122, 1555081692, 1996064986, 2554220882,
   2821834349, 2952996808, 3210313671, 3336571891, 3584528711,
   113926993, 338241895, 666307205, 773529912, 1294757372,
   1396182291, 1695183700, 1986661051, 2177026350, 2456956037,
   2730485921, 2820302411, 3259730800, 3345764771, 3516065817,
   3600352804, 4094571909, 275423344, 430227734, 506948616,
   659060556, 883997877, 958139571, 1322822218, 1537002063,
   1747873779, 1955562222, 2024104815, 2227730452, 2361852424,
   2428436474, 2756734187, 3204031479, 3329325298]

/-- SHA-256 chaining state: eight 32-bit words. -/
structure Sha256State where
  a : Nat
  b : Nat
  c : Nat
  d : Nat
  e : Nat
  f : Nat
  g : Nat
  h : Nat

/-- Initial SHA-256 hash state (FIPS 180-4), as decimal values. -/
def sha256H0 : Sha256State :=
  ⟨1779033703, 3144134277, 1013904242,
   2773480762, 1359893119, 2600822924,
   528734635, 1541459225⟩

/-- Extend 16 message-schedule words to 64. -/
def sha256Schedule (ws : List Nat) : List Nat :=
  (List.range 48).foldl
    (fun acc _ =>
      let n := acc.length
      let w := (smallSigma1 (acc.getD (n - 2) 0) + acc.getD (n - 7) 0 +
                smallSigma0 (acc.getD (n - 15) 0) + acc.getD (n - 16) 0) % M32
      acc ++ [w])
    ws

/-- One SHA-256 round. -/
def sha256Round (st : Sha256State) (kw : Nat × Nat) : Sha256State :=
  let t1 := (st.h + bigSigma1 st.e + sha256Ch st.e st.f st.g + kw.1 + kw.2) % M32
  let t2 := (bigSigma0 st.a + sha256Maj st.a st.b st.c) % M32
  ⟨(t1 + t2) % M32, st.a, st.b, st.c, (st.d + t1) % M32, st.e, st.f, st.g⟩

/-- Group a byte list into big-endian 32-bit words. -/
def bytesToWords : List Nat → List Nat
  | b0 :: b1 :: b2 :: b3 :: rest =>
      (((b0 * 256 + b1) * 256 + b2) * 256 + b3) :: bytesToWords rest
  | _ => []

/-- Compress one 64-byte block into the chaining state. -/
def sha256Compress (st : Sha256State) (block : List Nat) : Sha256State :=
  let ws := sha256Schedule (bytesToWords block)
  let r := (sha256K.zip ws).foldl sha256Round st
  ⟨(st.a + r.a) % M32, (st.b + r.b) % M32, (st.c + r.c) % M32,
   (st.d + r.d) % M32, (st.e + r.e) % M32, (st.f + r.f) % M32,
   (st.g + r.g) % M32, (st.h + r.h) % M32⟩

/-- Big-endian byte rendering of `n` on `k` bytes. -/
def toBytesBE : Nat → Nat → List Nat
  | 0, _ => []
  | k + 1, n => toBytesBE k (n / 256) ++ [n % 256]

/-- SHA-256 message padding: `0x80`, zeros, then the bit length on
8 big-endian bytes, reaching a multiple of 64 bytes. -/
def sha256Pad (msg : List Nat) : List Nat :=
  let len := msg.length
  msg ++ [0x80] ++ List.replicate ((119 - len % 64) % 64) 0 ++ toBytesBE 8 (len * 8)

/-- Split a list into blocks of 64 elements (structural recursion on a
fuel bound so that it reduces definitionally). -/
def chunks64Fuel : Nat → List Nat → List (List Nat)
  | 0, _ => []
  | _, [] => []
  | fuel + 1, l => l.take 64 :: chunks64Fuel fuel (l.drop 64)

/-- Split a list into blocks of 64 elements. -/
def chunks64 (l : List Nat) : List (List Nat) := chunks64Fuel l.length l

/-- Fixed-width lowercase hex digit. -/
def hexChar (n : Nat) : Char :=
  if n < 10 then Char.ofNat (48 + n) else Char.ofNat (87 + n)

/-- Fixed-width hex rendering of `n` on `k` digits. -/
def toHexFixed : Nat → Nat → List Char
  | 0, _ => []
  | k + 1, n => toHexFixed k (n / 16) ++ [hexChar (n % 16)]

/-- Hex digest of a final SHA-256 state: 8 words of 8 hex digits. -/
def sha256Digest (st : Sha256State) : String :=
  String.mk (toHexFixed 8 st.a ++ toHexFixed 8 st.b ++ toHexFixed 8 st.c ++
    toHexFixed 8 st.d ++ toHexFixed 8 st.e ++ toHexFixed 8 st.f ++
    toHexFixed 8 st.g ++ toHexFixed 8 st.h)

/-- SHA-256 hex digest of a byte string. -/
def sha256Hex (msg : List Nat) : String :=
  sha256Digest ((chunks64 (sha256Pad msg)).foldl sha256Compress sha256H0)

/-- UTF-8 encoding of one character (as byte values). -/
def utf8EncodeCharNat (c : Char) : List Nat :=
  let n := c.toNat
  if n < 0x80 then [n]
  else if n < 0x800 then [0xc0 + n / 64, 0x80 + n % 64]
  else if n < 0x10000 then
    [0xe0 + n / 4096, 0x80 + (n / 64) % 64, 0x80 + n % 64]
  else
    [0xf0 + n / 262144, 0x80 + (n / 4096) % 64, 0x80 + (n / 64) % 64, 0x80 + n % 64]

/-- UTF-8 encoding of a string (Python's `str.encode()` default). -/
def utf8Bytes (s : String) : List Nat := s.data.flatMap utf8EncodeCharNat

/-- Embeds `_hash_email`: SHA-256 hex digest of the UTF-8 encoded email. -/
def hash_email (email : String) : String := sha256Hex (utf8Bytes email)

/-- Sanity check of the SHA-256 embedding against the FIPS 180-4
known-answer test for the message "abc". -/
theorem sha256_known_answer_abc :
    sha256Hex (utf8Bytes "abc") =
      "ba7816bf8f01cfea414140de5dae2223b00361a396177a9cb410ff61f20015ad" := by
  decide

theorem toHexFixed_length (k n : Nat) : (toHexFixed k n).length = k := by
  induction k generalizing n with
  | zero => rfl
  | succ k ih => simp [toHexFixed, ih]

theorem sha256Digest_length (st : Sha256State) : (sha256Digest st).length = 64 := by
  simp [sha256Digest, String.length, toHexFixed_length]

/-- C8: `_hash_email` is deterministic — equal email strings, in the same
or different calls, yield the identical digest — the digest has fixed
length 64 hex characters, and a concrete pair of unequal emails yields
different digests (collision resistance beyond concrete evaluation is a
probabilistic property of SHA-256 and is not provable here). -/
theorem c8_hash_email_deterministic :
    (∀ e1 e2 : String, e1 = e2 → hash_email e1 = hash_email e2) ∧
    (∀ e : String, (hash_email e).length = 64) ∧
    hash_email "alice@example.com" ≠ hash_email "bob@example.com" := by
  refine ⟨fun e1 e2 h => by rw [h], fun e => ?_, by decide⟩
  simpa [hash_email, sha256Hex] using
    sha256Digest_length ((chunks64 (sha256Pad (utf8Bytes e))).foldl sha256Compress sha256H0)

/-- Witness for C8 at a concrete email: determinism and the fixed
64-character digest length for "alice@example.com". -/
theorem c8_hash_email_deterministic_witness :
    hash_email "alice@example.com" = hash_email "alice@example.com" ∧
    (hash_email "alice@example.com").length = 64 :=
  ⟨c8_hash_email_deterministic.1 "alice@example.com" "alice@example.com" rfl,
   c8_hash_email_deterministic.2.1 "alice@example.com"⟩

/-! ## Record schema and validation
(`dags/src/utils/schemas.py`, `dags/src/validation/validator.py`)

A `SalesRecord` value models one row of the input table, with currency
and rating floats as exact rationals and calendar dates as day numbers.
Validation (`schema(**record_dict)` with pydantic) is embedded field by
field, in the model's field declaration order, collecting one error
message per failing field; `model_dump` of an accepted record is the
record with its string fields stripped (pydantic
`str_strip_whitespace = True`). -/

structure SalesRecord where
  order_id : String
  customer_name : String
  customer_email : String
  customer_phone : String
  customer_address : String
  product_title : String
  product_rating : ℚ
  discounted_price : ℚ
  original_price : ℚ
  discount_percentage : Int
  is_best_seller : Bool
  delivery_date : Int
  data_collected_at : Int
  product_category : String
  quantity : Int
  order_date : Int
deriving DecidableEq, Inhabited

/-- Strip leading and trailing whitespace from a string, working on the
character list (pydantic `str_strip_whitespace`). -/
def pyStrip (s : String) : String :=
  String.mk (((s.data.dropWhile Char.isWhitespace).reverse.dropWhile
    Char.isWhitespace).reverse)

/-- Split a character list at every occurrence of `c`. -/
def splitOnChar (c : Char) (l : List Char) : List (List Char) :=
  l.foldr
    (fun ch acc =>
      if ch = c then [] :: acc
      else
        match acc with
        | h :: t => (ch :: h) :: t
        | [] => [[ch]])
    [[]]

/-- Pydantic string field check after whitespace stripping:
`min_length` / `max_length` bounds (lengths in characters). -/
def checkStrField (name : String) (minLen maxLen : Nat) (s : String) : Option String :=
  let t := (pyStrip s).data
  if t.length < minLen then some (name ++ ": string too short")
  else if maxLen < t.length then some (name ++ ": string too long")
  else none

/-- Modelled from the spec: pydantic's `EmailStr` is an external library
validator; it is abstracted as requiring a nonempty local part, exactly
one at-sign, and a nonempty domain containing a dot. No claim depends on
the exact boundary of this predicate. -/
def emailOk (s : String) : Bool :=
  match splitOnChar '@' s.data with
  | [lp, dp] => lp.length ≥ 1 && dp.length ≥ 1 && dp.contains '.'
  | _ => false

/-- Embeds the `validate_prices` field validator of `SalesRecord`:
a price must be unchanged by rounding to 2 decimal places; combined with
the `gt = 0.0` bound of the field itself (checked first). -/
def checkPriceField (name : String) (p : ℚ) : Option String :=
  if ¬(0 < p) then some (name ++ ": value must be greater than 0")
  else if round2 p ≠ p then some (name ++ ": Price must have at most 2 decimal places")
  else none

/-- Embeds the `validate_delivery_after_order` field validator: it reads
`order_date` from `info.data`, the fields validated so far, and skips the
comparison when that value is absent. -/
def validate_delivery_after_order (delivery : Int) (orderDateSoFar : Option Int) :
    Option String :=
  match orderDateSoFar with
  | some od =>
      if delivery < od then
        some "delivery_date: Delivery date cannot be before order date"
      else none
  | none => none

/-- Field errors of one record, in pydantic's validation order, which is
the field declaration order of `SalesRecord`. When the `delivery_date`
validator runs, `info.data` holds only the fields declared before
`delivery_date`; `order_date` is declared after it, so the validator
receives `none` for `order_date` — this mirrors
`info.data.get("order_date")` returning `None` in `schemas.py`. -/
def recordErrors (r : SalesRecord) : List String :=
  [checkStrField "order_id" 10 10 r.order_id,
   checkStrField "customer_name" 1 255 r.customer_name,
   (if emailOk (pyStrip r.customer_email) then none
    else some "customer_email: value is not a valid email address"),
   checkStrField "customer_phone" 1 50 r.customer_phone,
   checkStrField "customer_address" 1 500 r.customer_address,
   checkStrField "product_title" 1 500 r.product_title,
   (if ¬(1 ≤ r.product_rating ∧ r.product_rating ≤ 5) then
      some "product_rating: value out of range" else none),
   checkPriceField "discounted_price" r.discounted_price,
   checkPriceField "original_price" r.original_price,
   (if ¬(0 ≤ r.discount_percentage ∧ r.discount_percentage ≤ 100) then
      some "discount_percentage: value out of range" else none),
   validate_delivery_after_order r.delivery_date none,
   (if ¬(1 ≤ r.quantity) then some "quantity: value must be at least 1" else none),
   checkStrField "product_category" 1 100 r.product_category].filterMap id

/-- Model dump of an accepted record: the record with string fields
stripped of surrounding whitespace. -/
def stripRecord (r : SalesRecord) : SalesRecord :=
  { r with
    order_id := pyStrip r.order_id
    customer_name := pyStrip r.customer_name
    customer_email := pyStrip r.customer_email
    customer_phone := pyStrip r.customer_phone
    customer_address := pyStrip r.customer_address
    product_title := pyStrip r.product_title
    product_category := pyStrip r.product_category }

/-- Embeds `schema(**record_dict)` for `SalesRecord`: either the
validated (stripped) record, or the joined field error messages. -/
def validateSalesRecord (r : SalesRecord) : Except String SalesRecord :=
  match recordErrors r with
  | [] => .ok (stripRecord r)
  | errs => .error (String.intercalate "; " errs)

/-- One quarantined row: the original row, the attached error
description, and the original row index. -/
structure InvalidRow where
  row : SalesRecord
  validation_error : String
  row_index : Nat
deriving DecidableEq

/-- Row-by-row validation loop of `_validate_single_dataframe`, carrying
the running row index: each row lands in the valid output exactly when
its validation succeeds, otherwise in the invalid output together with
the error text and its index. -/
def validateFrom (idx : Nat) : List SalesRecord → List SalesRecord × List InvalidRow
  | [] => ([], [])
  | r :: rest =>
      let tail := validateFrom (idx + 1) rest
      match validateSalesRecord r with
      | .ok v => (v :: tail.1, tail.2)
      | .error e => (tail.1, ⟨r, e, idx⟩ :: tail.2)

/-- Embeds `_validate_single_dataframe`: partition a batch into the
valid and the invalid table. -/
def validate_single_dataframe (rows : List SalesRecord) :
    List SalesRecord × List InvalidRow :=
  validateFrom 0 rows

theorem validateFrom_length (idx : Nat) (rows : List SalesRecord) :
    (validateFrom idx rows).1.length + (validateFrom idx rows).2.length = rows.length := by
  induction rows generalizing idx with
  | nil => rfl
  | cons r rest ih =>
      simp only [validateFrom]
      cases validateSalesRecord r <;>
        simpa [List.length_cons] using by
          have := ih (idx + 1); omega

theorem validateFrom_valid (idx : Nat) (rows : List SalesRecord) :
    (validateFrom idx rows).1 =
      rows.filterMap (fun r => (validateSalesRecord r).toOption) := by
  induction rows generalizing idx with
  | nil => rfl
  | cons r rest ih =>
      simp only [validateFrom, List.filterMap_cons]
      cases h : validateSalesRecord r <;> simp [Except.toOption, ih (idx + 1)]

theorem validateFrom_invalid (idx : Nat) (rows : List SalesRecord) :
    (validateFrom idx rows).2.map (fun e => (e.row_index, e.row)) =
      (rows.enumFrom idx).filter (fun p => !(validateSalesRecord p.2).isOk) := by
  induction rows generalizing idx with
  | nil => rfl
  | cons r rest ih =>
      simp only [validateFrom, List.enumFrom_cons, List.filter_cons]
      cases h : validateSalesRecord r <;>
        simp [Except.isOk, Except.toBool, ih (idx + 1), h]

/-- C3: validation partitions every input batch — valid count plus
invalid count equals the input count; the valid output consists exactly
of the (stripped) rows whose validation succeeds, in order; the invalid
output carries exactly the index/row pairs whose validation fails, so no
input row is routed to both outputs; and the empty batch yields two
empty tables rather than an error. -/
theorem c3_validation_partition (rows : List SalesRecord) :
    ((validate_single_dataframe rows).1.length +
        (validate_single_dataframe rows).2.length = rows.length) ∧
    ((validate_single_dataframe rows).1 =
        rows.filterMap (fun r => (validateSalesRecord r).toOption)) ∧
    ((validate_single_dataframe rows).2.map (fun e => (e.row_index, e.row)) =
        (rows.enumFrom 0).filter (fun p => !(validateSalesRecord p.2).isOk)) ∧
    validate_single_dataframe [] = ([], []) :=
  ⟨validateFrom_length 0 rows, validateFrom_valid 0 rows,
   validateFrom_invalid 0 rows, rfl⟩

/-- A row that satisfies every field constraint except date ordering:
its `delivery_date` (day 10) is strictly before its `order_date`
(day 20). -/
def c1Row : SalesRecord where
  order_id := "ORD1234567"
  customer_name := "Jane Doe"
  customer_email := "jane.doe@example.com"
  customer_phone := "555-123-4567"
  customer_address := "1 Main St"
  product_title := "Widget"
  product_rating := 9/2
  discounted_price := 50
  original_price := 100
  discount_percentage := 50
  is_best_seller := false
  delivery_date := 10
  data_collected_at := 20
  product_category := "Gadgets"
  quantity := 1
  order_date := 20

/-- C1 (failing input): `c1Row` has `delivery_date` strictly before
`order_date` and every other field valid, yet validation accepts it —
it lands in the valid output and the invalid output is empty. The
cross-field comparison in `validate_delivery_after_order` never fires
because `order_date` is declared after `delivery_date` in `SalesRecord`,
so pydantic has not validated it yet when the `delivery_date` validator
reads `info.data`; this contradicts the validator's own documentation
("Raises ValueError: If delivery date is before order date"). -/
theorem c1_delivery_before_order_accepted :
    c1Row.delivery_date < c1Row.order_date ∧
    (validateSalesRecord c1Row).isOk = true ∧
    (validate_single_dataframe [c1Row]).1.length = 1 ∧
    (validate_single_dataframe [c1Row]).2 = [] := by
  refine ⟨by decide, ?_, ?_, ?_⟩ <;> with_unfolding_all decide

/-! ## DataFrame model and the transformation step
(`dags/src/transformation/transformer.py`)

A pandas DataFrame is modelled column-oriented: an ordered association
list from column name to the list of cell values, with a cell value
being a string, exact rational, integer, boolean, date (day number) or
null (NaN/NaT/None). -/

inductive Val
  | str (s : String)
  | num (q : ℚ)
  | intv (n : Int)
  | boolv (b : Bool)
  | date (d : Int)
  | null
deriving DecidableEq

abbrev DataFrame := List (String × List Val)

/-- Membership test `c in df.columns`. -/
def hasCol : DataFrame → String → Bool
  | [], _ => false
  | (n, _) :: rest, c => n = c || hasCol rest c

/-- Column read `df[c]` (the empty column when absent). -/
def getCol : DataFrame → String → List Val
  | [], _ => []
  | (n, vs) :: rest, c => if n = c then vs else getCol rest c

/-- Column assignment `df[c] = vals`: replace the column in place when
present, otherwise append it as the last column. -/
def setCol : DataFrame → String → List Val → DataFrame
  | [], c, vals => [(c, vals)]
  | (n, vs) :: rest, c, vals =>
      if n = c then (n, vals) :: rest else (n, vs) :: setCol rest c vals

/-- Column removal `df.drop(columns=[c])`. -/
def dropCol (df : DataFrame) (c : String) : DataFrame :=
  df.filter (fun p => p.1 ≠ c)

/-- Apply a string function to every cell of a column (`Series.apply`);
the PII columns hold strings after validation, other cells pass through
unchanged. -/
def applyStr (f : String → String) (v : Val) : Val :=
  match v with
  | .str s => .str (f s)
  | v => v

/-- One PII block of `_anonymize_pii`: when the source column is
present, write the derived column (applying `f` to every cell) and drop
the source column. -/
def piiBlock (df : DataFrame) (src dst : String) (f : String → String) : DataFrame :=
  if hasCol df src then
    dropCol (setCol df dst ((getCol df src).map (applyStr f))) src
  else df

/-- Embeds `_anonymize_pii`: hash the email column, redact the phone and
address columns, each time dropping the original PII column; every block
is guarded by a column-presence check. -/
def anonymize_pii (df : DataFrame) : DataFrame :=
  piiBlock
    (piiBlock
      (piiBlock df "customer_email" "customer_email_hash" hash_email)
      "customer_phone" "customer_phone_redacted" redact_phone)
    "customer_address" "customer_address_redacted" redact_address

/-- Elementwise `df["discounted_price"] - df["original_price"] * 0.6`
(`0.6 = 3/5` as an exact rational); a non-numeric cell pair yields null. -/
def profitCell (d o : Val) : Val :=
  match d, o with
  | .num a, .num b => .num (a - b * (3/5))
  | _, _ => .null

/-- Embeds `_calculate_profit`: when both price columns are present, add
the (unrounded) profit column; otherwise leave the frame unchanged. -/
def calculate_profit (df : DataFrame) : DataFrame :=
  if hasCol df "discounted_price" && hasCol df "original_price" then
    setCol df "profit"
      (List.zipWith profitCell (getCol df "discounted_price") (getCol df "original_price"))
  else df

/-- Cell coercion of `pd.to_datetime(col, errors="coerce")`: date cells
survive, anything unparseable becomes NaT (null). -/
def coerceDate (v : Val) : Val :=
  match v with
  | .date d => .date d
  | _ => .null

/-- Dtype test `pd.api.types.is_datetime64_any_dtype`: a column is
datetime-typed when every cell is a date or NaT. -/
def isDatetimeCol (vals : List Val) : Bool :=
  vals.all (fun v => match v with | .date _ => true | .null => true | _ => false)

/-- Embeds `_convert_dates`: coerce the three date columns to datetime
when present and not already datetime-typed. -/
def convert_dates (df : DataFrame) : DataFrame :=
  ["order_date", "delivery_date", "data_collected_at"].foldl
    (fun df col =>
      if hasCol df col && !isDatetimeCol (getCol df col) then
        setCol df col ((getCol df col).map coerceDate)
      else df)
    df

/-- Round a numeric cell to 2 decimals (`Series.round(2)`). -/
def roundCell (v : Val) : Val :=
  match v with
  | .num q => .num (round2 q)
  | v => v

/-- Embeds `_round_monetary_values`: round the three monetary columns,
in this order, when present. -/
def round_monetary_values (df : DataFrame) : DataFrame :=
  ["discounted_price", "original_price", "profit"].foldl
    (fun df col =>
      if hasCol df col then setCol df col ((getCol df col).map roundCell) else df)
    df

/-- Embeds `_transform_single_dataframe` at the value level (the
`df.copy()` step is the identity on values; object identity is treated
by the heap model below): anonymize, compute profit, convert dates, and
round monetary values as the final step. -/
def transform_single_dataframe (df : DataFrame) : DataFrame :=
  round_monetary_values (convert_dates (calculate_profit (anonymize_pii df)))

theorem getCol_setCol_self (df : DataFrame) (c : String) (vals : List Val) :
    getCol (setCol df c vals) c = vals := by
  induction df with
  | nil => simp [setCol, getCol]
  | cons p rest ih =>
      obtain ⟨n, vs⟩ := p
      by_cases h : n = c <;> simp [setCol, getCol, h, ih]

theorem getCol_setCol_other (df : DataFrame) (c c' : String) (vals : List Val)
    (h : c ≠ c') : getCol (setCol df c vals) c' = getCol df c' := by
  induction df with
  | nil => simp [setCol, getCol, h]
  | cons p rest ih =>
      obtain ⟨n, vs⟩ := p
      by_cases hn : n = c
      · subst hn; simp [setCol, getCol, h]
      · simp only [setCol, if_neg hn]
        by_cases hn' : n = c' <;> simp [getCol, hn', ih]

theorem hasCol_setCol_other (df : DataFrame) (c c' : String) (vals : List Val)
    (h : c ≠ c') : hasCol (setCol df c vals) c' = hasCol df c' := by
  induction df with
  | nil => simp [setCol, hasCol, h]
  | cons p rest ih =>
      obtain ⟨n, vs⟩ := p
      by_cases hn : n = c
      · subst hn; simp [setCol, hasCol, h, ih]
      · simp [setCol, hasCol, hn, ih]

theorem getCol_dropCol_other (df : DataFrame) (c c' : String) (h : c ≠ c') :
    getCol (dropCol df c) c' = getCol df c' := by
  induction df with
  | nil => simp [dropCol, getCol]
  | cons p rest ih =>
      obtain ⟨n, vs⟩ := p
      by_cases hn : n = c
      · subst hn; simpa [dropCol, getCol, h] using ih
      · by_cases hn' : n = c' <;> simp_all [dropCol, getCol, hn, hn']

theorem hasCol_dropCol_other (df : DataFrame) (c c' : String) (h : c ≠ c') :
    hasCol (dropCol df c) c' = hasCol df c' := by
  induction df with
  | nil => simp [dropCol, hasCol]
  | cons p rest ih =>
      obtain ⟨n, vs⟩ := p
      by_cases hn : n = c
      · subst hn; simpa [dropCol, hasCol, h] using ih
      · by_cases hn' : n = c' <;> simp_all [dropCol, hasCol, hn, hn']

theorem piiBlock_preserves (df : DataFrame) (src dst c : String)
    (f : String → String) (hs : src ≠ c) (hd : dst ≠ c) :
    getCol (piiBlock df src dst f) c = getCol df c ∧
      hasCol (piiBlock df src dst f) c = hasCol df c := by
  unfold piiBlock
  split
  · exact ⟨by rw [getCol_dropCol_other _ _ _ hs, getCol_setCol_other _ _ _ _ hd],
      by rw [hasCol_dropCol_other _ _ _ hs, hasCol_setCol_other _ _ _ _ hd]⟩
  · exact ⟨rfl, rfl⟩

/-- `_anonymize_pii` touches only PII columns: any other column keeps
its values and presence. -/
theorem anonymize_pii_preserves (df : DataFrame) (c : String)
    (h1 : "customer_email_hash" ≠ c) (h2 : "customer_email" ≠ c)
    (h3 : "customer_phone_redacted" ≠ c) (h4 : "customer_phone" ≠ c)
    (h5 : "customer_address_redacted" ≠ c) (h6 : "customer_address" ≠ c) :
    getCol (anonymize_pii df) c = getCol df c ∧
      hasCol (anonymize_pii df) c = hasCol df c := by
  unfold anonymize_pii
  have b1 := piiBlock_preserves df "customer_email" "customer_email_hash" c hash_email h2 h1
  have b2 := piiBlock_preserves
    (piiBlock df "customer_email" "customer_email_hash" hash_email)
    "customer_phone" "customer_phone_redacted" c redact_phone h4 h3
  have b3 := piiBlock_preserves
    (piiBlock (piiBlock df "customer_email" "customer_email_hash" hash_email)
      "customer_phone" "customer_phone_redacted" redact_phone)
    "customer_address" "customer_address_redacted" c redact_address h6 h5
  exact ⟨by rw [b3.1, b2.1, b1.1], by rw [b3.2, b2.2, b1.2]⟩

theorem hasCol_setCol_self (df : DataFrame) (c : String) (vals : List Val) :
    hasCol (setCol df c vals) c = true := by
  induction df with
  | nil => simp [setCol, hasCol]
  | cons p rest ih =>
      obtain ⟨n, vs⟩ := p
      by_cases h : n = c <;> simp [setCol, hasCol, h, ih]

/-- `_convert_dates` touches only the three date columns: any other
column keeps its values and presence. -/
theorem convert_dates_preserves (df : DataFrame) (c : String)
    (h1 : "order_date" ≠ c) (h2 : "delivery_date" ≠ c)
    (h3 : "data_collected_at" ≠ c) :
    getCol (convert_dates df) c = getCol df c ∧
      hasCol (convert_dates df) c = hasCol df c := by
  unfold convert_dates
  simp only [List.foldl_cons, List.foldl_nil]
  set df1 := if hasCol df "order_date" && !isDatetimeCol (getCol df "order_date") then
      setCol df "order_date" ((getCol df "order_date").map coerceDate) else df with hdf1
  set df2 := if hasCol df1 "delivery_date" && !isDatetimeCol (getCol df1 "delivery_date") then
      setCol df1 "delivery_date" ((getCol df1 "delivery_date").map coerceDate) else df1 with hdf2
  have e1 : getCol df1 c = getCol df c ∧ hasCol df1 c = hasCol df c := by
    rw [hdf1]; split
    · exact ⟨getCol_setCol_other _ _ _ _ h1, hasCol_setCol_other _ _ _ _ h1⟩
    · exact ⟨rfl, rfl⟩
  have e2 : getCol df2 c = getCol df1 c ∧ hasCol df2 c = hasCol df1 c := by
    rw [hdf2]; split
    · exact ⟨getCol_setCol_other _ _ _ _ h2, hasCol_setCol_other _ _ _ _ h2⟩
    · exact ⟨rfl, rfl⟩
  split
  · exact ⟨by rw [getCol_setCol_other _ _ _ _ h3, e2.1, e1.1],
      by rw [hasCol_setCol_other _ _ _ _ h3, e2.2, e1.2]⟩
  · exact ⟨by rw [e2.1, e1.1], by rw [e2.2, e1.2]⟩

theorem zipWith_profit_round (ds os : List ℚ) :
    (List.zipWith profitCell (ds.map Val.num) (os.map Val.num)).map roundCell =
      (List.zipWith (fun d o => round2 (d - o * (3/5))) ds os).map Val.num := by
  induction ds generalizing os with
  | nil => simp
  | cons d ds ih =>
      cases os with
      | nil => simp
      | cons o os =>
          simp only [List.map_cons, List.zipWith_cons_cons]
          exact congrArg₂ List.cons rfl (ih os)

/-- C7: for every frame in which both price columns are present as
aligned numeric columns, the transform produces a profit column equal,
cell for cell, to `round(discounted_price - original_price * 0.6, 2)`;
profit is computed from the unrounded input prices by
`_calculate_profit`, and the 2-decimal rounding of the monetary columns
(profit included) happens afterwards in `_round_monetary_values`, the
final step of `_transform_single_dataframe`. -/
theorem c7_profit_formula (df : DataFrame) (ds os : List ℚ)
    (hd : getCol df "discounted_price" = ds.map Val.num)
    (ho : getCol df "original_price" = os.map Val.num)
    (hhd : hasCol df "discounted_price" = true)
    (hho : hasCol df "original_price" = true) :
    getCol (transform_single_dataframe df) "profit" =
      (List.zipWith (fun d o => round2 (d - o * (3/5))) ds os).map Val.num := by
  have had := anonymize_pii_preserves df "discounted_price"
    (by decide) (by decide) (by decide) (by decide) (by decide) (by decide)
  have hao := anonymize_pii_preserves df "original_price"
    (by decide) (by decide) (by decide) (by decide) (by decide) (by decide)
  set dfA := anonymize_pii df with hdfA
  have hprofit : getCol (calculate_profit dfA) "profit" =
      List.zipWith profitCell (ds.map Val.num) (os.map Val.num) := by
    unfold calculate_profit
    rw [had.2, hao.2, hhd, hho]
    simp only [Bool.and_self, if_pos]
    rw [getCol_setCol_self, had.1, hao.1, hd, ho]
  have hCP : hasCol (calculate_profit dfA) "profit" = true := by
    unfold calculate_profit
    rw [had.2, hao.2, hhd, hho]
    simp only [Bool.and_self, if_pos]
    exact hasCol_setCol_self _ _ _
  have hCD := convert_dates_preserves (calculate_profit dfA) "profit"
    (by decide) (by decide) (by decide)
  set dfC := convert_dates (calculate_profit dfA) with hdfC
  have hCDh : hasCol dfC "profit" = true := by rw [hCD.2, hCP]
  have hfinal : getCol (round_monetary_values dfC) "profit" =
      (getCol dfC "profit").map roundCell := by
    unfold round_monetary_values
    simp only [List.foldl_cons, List.foldl_nil]
    set dfR1 := if hasCol dfC "discounted_price" then
        setCol dfC "discounted_price" ((getCol dfC "discounted_price").map roundCell)
      else dfC with hdfR1
    set dfR2 := if hasCol dfR1 "original_price" then
        setCol dfR1 "original_price" ((getCol dfR1 "original_price").map roundCell)
      else dfR1 with hdfR2
    have e1 : getCol dfR1 "profit" = getCol dfC "profit" ∧
        hasCol dfR1 "profit" = hasCol dfC "profit" := by
      rw [hdfR1]; split
      · exact ⟨getCol_setCol_other _ _ _ _ (by decide),
          hasCol_setCol_other _ _ _ _ (by decide)⟩
      · exact ⟨rfl, rfl⟩
    have e2 : getCol dfR2 "profit" = getCol dfR1 "profit" ∧
        hasCol dfR2 "profit" = hasCol dfR1 "profit" := by
      rw [hdfR2]; split
      · exact ⟨getCol_setCol_other _ _ _ _ (by decide),
          hasCol_setCol_other _ _ _ _ (by decide)⟩
      · exact ⟨rfl, rfl⟩
    have h2 : hasCol dfR2 "profit" = true := by rw [e2.2, e1.2, hCDh]
    rw [h2]
    simp only [if_pos]
    rw [getCol_setCol_self, e2.1, e1.1]
  rw [transform_single_dataframe, ← hdfA, ← hdfC, hfinal, hCD.1, hprofit,
    zipWith_profit_round]

/-- Witness for C7 at a concrete one-row frame with both price columns:
discounted 10, original 10. -/
theorem c7_profit_formula_witness :
    getCol
      (transform_single_dataframe
        [("discounted_price", [Val.num 10]), ("original_price", [Val.num 10])])
      "profit" =
      (List.zipWith (fun d o => round2 (d - o * (3/5))) [10] [10]).map Val.num :=
  c7_profit_formula
    [("discounted_price", [Val.num 10]), ("original_price", [Val.num 10])]
    [10] [10] rfl rfl rfl rfl

/-! ## Heap model of frame objects (for the no-mutation contract of
`_transform_single_dataframe`)

Pandas frames are mutable objects: `df[c] = ...` writes through the
reference, `df.copy()` and `df.drop(...)` allocate fresh objects. The
heap is a list of frame objects addressed by allocation index; the
transform is re-expressed as heap updates that mirror, step by step,
which statements of `transformer.py` mutate in place and which allocate. -/

abbrev Heap := List DataFrame

def heapGet (h : Heap) (r : Nat) : DataFrame := h.getD r []

def heapSet (h : Heap) (r : Nat) (df : DataFrame) : Heap := h.set r df

theorem heapGet_set_ne (h : Heap) (r i : Nat) (v : DataFrame) (hne : i ≠ r) :
    heapGet (heapSet h r v) i = heapGet h i := by
  induction h generalizing r i with
  | nil => rfl
  | cons d rest ih =>
      cases r with
      | zero =>
          cases i with
          | zero => exact absurd rfl hne
          | succ j => rfl
      | succ rr =>
          cases i with
          | zero => rfl
          | succ j => exact ih rr j (fun hc => hne (by rw [hc]))

theorem heapGet_set_self (h : Heap) (r : Nat) (v : DataFrame) (hr : r < h.length) :
    heapGet (heapSet h r v) r = v := by
  induction h generalizing r with
  | nil => simp at hr
  | cons d rest ih =>
      cases r with
      | zero => rfl
      | succ rr => exact ih rr (by simpa using hr)

theorem heapGet_append_lt (h tail : Heap) (i : Nat) (hi : i < h.length) :
    heapGet (h ++ tail) i = heapGet h i := by
  induction h generalizing i with
  | nil => simp at hi
  | cons d rest ih =>
      cases i with
      | zero => rfl
      | succ j => exact ih j (by simpa using hi)

theorem heapGet_append_len (h : Heap) (v : DataFrame) :
    heapGet (h ++ [v]) h.length = v := by
  induction h with
  | nil => rfl
  | cons d rest ih => exact ih

/-- The heap `h` extends `h0`: it is at least as long and agrees with it
on every object allocated in `h0`. -/
def HExt (h0 h : Heap) : Prop :=
  h0.length ≤ h.length ∧ ∀ i, i < h0.length → heapGet h i = heapGet h0 i

theorem HExt_rfl (h : Heap) : HExt h h := ⟨le_rfl, fun _ _ => rfl⟩

theorem HExt_trans (h0 h1 h2 : Heap) (a : HExt h0 h1) (b : HExt h1 h2) :
    HExt h0 h2 :=
  ⟨a.1.trans b.1, fun i hi => (b.2 i (lt_of_lt_of_le hi a.1)).trans (a.2 i hi)⟩

/-- One PII block at the object level: `df[dst] = df[src].apply(f)`
writes through the reference `r`, then `df = df.drop(columns=[src])`
allocates a fresh frame and rebinds the local variable to it. -/
def piiBlockHeap (h : Heap) (r : Nat) (src dst : String) (f : String → String) :
    Nat × Heap :=
  if hasCol (heapGet h r) src then
    let h1 := heapSet h r
      (setCol (heapGet h r) dst ((getCol (heapGet h r) src).map (applyStr f)))
    (h1.length, h1 ++ [dropCol (heapGet h1 r) src])
  else (r, h)

/-- Object-level `_anonymize_pii`. -/
def anonymize_pii_heap (h : Heap) (r : Nat) : Nat × Heap :=
  let s1 := piiBlockHeap h r "customer_email" "customer_email_hash" hash_email
  let s2 := piiBlockHeap s1.2 s1.1 "customer_phone" "customer_phone_redacted" redact_phone
  piiBlockHeap s2.2 s2.1 "customer_address" "customer_address_redacted" redact_address

/-- An in-place frame update (`df[col] = ...` loops): apply `g` to the
object behind `r`, returning the same reference. -/
def inPlaceHeap (g : DataFrame → DataFrame) (h : Heap) (r : Nat) : Nat × Heap :=
  (r, heapSet h r (g (heapGet h r)))

/-- Object-level `_transform_single_dataframe`: `df.copy()` allocates,
`_anonymize_pii` mutates the copy and rebinds across its `drop` calls,
and `_calculate_profit`, `_convert_dates`, `_round_monetary_values`
mutate the current object in place. -/
def transform_single_dataframe_heap (h : Heap) (r : Nat) : Nat × Heap :=
  let h0 := h ++ [heapGet h r]
  let rc := h.length
  let s1 := anonymize_pii_heap h0 rc
  let s2 := inPlaceHeap calculate_profit s1.2 s1.1
  let s3 := inPlaceHeap convert_dates s2.2 s2.1
  inPlaceHeap round_monetary_values s3.2 s3.1

/-- Specification of one object-level PII block relative to a base heap
`h0` none of whose objects it may touch. -/
theorem piiBlockHeap_spec (h0 h : Heap) (r : Nat) (src dst : String)
    (f : String → String) (hext : HExt h0 h) (hr1 : h0.length ≤ r)
    (hr2 : r < h.length) :
    HExt h0 (piiBlockHeap h r src dst f).2 ∧
      h0.length ≤ (piiBlockHeap h r src dst f).1 ∧
      (piiBlockHeap h r src dst f).1 < (piiBlockHeap h r src dst f).2.length ∧
      heapGet (piiBlockHeap h r src dst f).2 (piiBlockHeap h r src dst f).1 =
        piiBlock (heapGet h r) src dst f := by
  by_cases hc : hasCol (heapGet h r) src
  · set v := setCol (heapGet h r) dst ((getCol (heapGet h r) src).map (applyStr f))
      with hv
    have hA : piiBlockHeap h r src dst f =
        ((heapSet h r v).length,
          heapSet h r v ++ [dropCol (heapGet (heapSet h r v) r) src]) := by
      unfold piiBlockHeap
      rw [if_pos hc]
    have hlen : (heapSet h r v).length = h.length := List.length_set h r v
    have hget : heapGet (heapSet h r v) r = v := heapGet_set_self h r v hr2
    have hpii : piiBlock (heapGet h r) src dst f = dropCol v src := by
      unfold piiBlock
      rw [if_pos hc]
    rw [hA, hpii]
    refine ⟨⟨?_, ?_⟩, ?_, ?_, ?_⟩
    · simp only [List.length_append, List.length_singleton, hlen]
      omega
    · intro i hi
      have hi' : i < (heapSet h r v).length := by omega
      rw [heapGet_append_lt _ _ i hi', heapGet_set_ne h r i v (by omega)]
      exact hext.2 i hi
    · simp only [hlen]
      omega
    · simp
    · rw [heapGet_append_len, hget]
  · have hA : piiBlockHeap h r src dst f = (r, h) := by
      unfold piiBlockHeap
      rw [if_neg hc]
    have hpii : piiBlock (heapGet h r) src dst f = heapGet h r := by
      unfold piiBlock
      rw [if_neg hc]
    rw [hA, hpii]
    exact ⟨hext, hr1, hr2, rfl⟩

/-- Specification of an in-place update relative to a base heap `h0`
none of whose objects it may touch. -/
theorem inPlaceHeap_spec (g : DataFrame → DataFrame) (h0 h : Heap) (r : Nat)
    (hext : HExt h0 h) (hr1 : h0.length ≤ r) (hr2 : r < h.length) :
    HExt h0 (inPlaceHeap g h r).2 ∧
      h0.length ≤ (inPlaceHeap g h r).1 ∧
      (inPlaceHeap g h r).1 < (inPlaceHeap g h r).2.length ∧
      heapGet (inPlaceHeap g h r).2 (inPlaceHeap g h r).1 = g (heapGet h r) := by
  unfold inPlaceHeap
  refine ⟨⟨?_, ?_⟩, hr1, ?_, ?_⟩
  · simpa [heapSet, List.length_set] using hext.1
  · intro i hi
    rw [heapGet_set_ne h r i _ (by omega)]
    exact hext.2 i hi
  · simpa [heapSet, List.length_set] using hr2
  · exact heapGet_set_self h r _ hr2

/-- Specification of the object-level `_anonymize_pii` relative to a
base heap `h0`. -/
theorem anonymize_pii_heap_spec (h0 h : Heap) (r : Nat)
    (hext : HExt h0 h) (hr1 : h0.length ≤ r) (hr2 : r < h.length) :
    HExt h0 (anonymize_pii_heap h r).2 ∧
      h0.length ≤ (anonymize_pii_heap h r).1 ∧
      (anonymize_pii_heap h r).1 < (anonymize_pii_heap h r).2.length ∧
      heapGet (anonymize_pii_heap h r).2 (anonymize_pii_heap h r).1 =
        anonymize_pii (heapGet h r) := by
  have s1 := piiBlockHeap_spec h0 h r "customer_email" "customer_email_hash"
    hash_email hext hr1 hr2
  have s2 := piiBlockHeap_spec h0 _ _ "customer_phone" "customer_phone_redacted"
    redact_phone s1.1 s1.2.1 s1.2.2.1
  have s3 := piiBlockHeap_spec h0 _ _ "customer_address" "customer_address_redacted"
    redact_address s2.1 s2.2.1 s2.2.2.1
  refine ⟨s3.1, s3.2.1, s3.2.2.1, ?_⟩
  show heapGet _ _ = anonymize_pii (heapGet h r)
  rw [anonymize_pii]
  rw [show anonymize_pii_heap h r =
    piiBlockHeap
      (piiBlockHeap
        (piiBlockHeap h r "customer_email" "customer_email_hash" hash_email).2
        (piiBlockHeap h r "customer_email" "customer_email_hash" hash_email).1
        "customer_phone" "customer_phone_redacted" redact_phone).2
      (piiBlockHeap
        (piiBlockHeap h r "customer_email" "customer_email_hash" hash_email).2
        (piiBlockHeap h r "customer_email" "customer_email_hash" hash_email).1
        "customer_phone" "customer_phone_redacted" redact_phone).1
      "customer_address" "customer_address_redacted" redact_address from rfl]
  rw [s3.2.2.2, s2.2.2.2, s1.2.2.2]

/-- C9: the PII transform never mutates the caller's input frame — after
running the object-level transform, every object of the original heap
(in particular the input frame behind `r`) is unchanged, the returned
reference is a newly allocated object distinct from every original one,
and the new object holds exactly the value-level transform of the input
frame (a transformed copy). -/
theorem c9_transform_no_mutation (h : Heap) (r : Nat) (_hr : r < h.length) :
    (∀ i, i < h.length →
      heapGet (transform_single_dataframe_heap h r).2 i = heapGet h i) ∧
    h.length ≤ (transform_single_dataframe_heap h r).1 ∧
    (transform_single_dataframe_heap h r).1 <
      (transform_single_dataframe_heap h r).2.length ∧
    heapGet (transform_single_dataframe_heap h r).2
        (transform_single_dataframe_heap h r).1 =
      transform_single_dataframe (heapGet h r) := by
  have hext0 : HExt h (h ++ [heapGet h r]) :=
    ⟨by simp, fun i hi => heapGet_append_lt h _ i hi⟩
  have hrc1 : h.length ≤ h.length := le_rfl
  have hrc2 : h.length < (h ++ [heapGet h r]).length := by simp
  have hcopy : heapGet (h ++ [heapGet h r]) h.length = heapGet h r :=
    heapGet_append_len h _
  have s1 := anonymize_pii_heap_spec h (h ++ [heapGet h r]) h.length hext0 hrc1 hrc2
  have s2 := inPlaceHeap_spec calculate_profit h _ _ s1.1 s1.2.1 s1.2.2.1
  have s3 := inPlaceHeap_spec convert_dates h _ _ s2.1 s2.2.1 s2.2.2.1
  have s4 := inPlaceHeap_spec round_monetary_values h _ _ s3.1 s3.2.1 s3.2.2.1
  have hdef : transform_single_dataframe_heap h r =
      inPlaceHeap round_monetary_values
        (inPlaceHeap convert_dates
          (inPlaceHeap calculate_profit
            (anonymize_pii_heap (h ++ [heapGet h r]) h.length).2
            (anonymize_pii_heap (h ++ [heapGet h r]) h.length).1).2
          (inPlaceHeap calculate_profit
            (anonymize_pii_heap (h ++ [heapGet h r]) h.length).2
            (anonymize_pii_heap (h ++ [heapGet h r]) h.length).1).1).2
        (inPlaceHeap convert_dates
          (inPlaceHeap calculate_profit
            (anonymize_pii_heap (h ++ [heapGet h r]) h.length).2
            (anonymize_pii_heap (h ++ [heapGet h r]) h.length).1).2
          (inPlaceHeap calculate_profit
            (anonymize_pii_heap (h ++ [heapGet h r]) h.length).2
            (anonymize_pii_heap (h ++ [heapGet h r]) h.length).1).1).1 := rfl
  rw [hdef]
  refine ⟨fun i hi => s4.1.2 i hi, s4.2.1, s4.2.2.1, ?_⟩
  rw [s4.2.2.2, s3.2.2.2, s2.2.2.2, s1.2.2.2, hcopy, transform_single_dataframe]

/-- Witness for C9 at a concrete heap holding one single-column frame:
the original object is untouched, and the result is a fresh object
holding the transformed value. -/
theorem c9_transform_no_mutation_witness :
    (∀ i, i < (1 : Nat) →
      heapGet (transform_single_dataframe_heap [[("quantity", [Val.intv 2])]] 0).2 i =
        heapGet [[("quantity", [Val.intv 2])]] i) ∧
    (1 : Nat) ≤ (transform_single_dataframe_heap [[("quantity", [Val.intv 2])]] 0).1 ∧
    (transform_single_dataframe_heap [[("quantity", [Val.intv 2])]] 0).1 <
      (transform_single_dataframe_heap [[("quantity", [Val.intv 2])]] 0).2.length ∧
    heapGet (transform_single_dataframe_heap [[("quantity", [Val.intv 2])]] 0).2
        (transform_single_dataframe_heap [[("quantity", [Val.intv 2])]] 0).1 =
      transform_single_dataframe (heapGet [[("quantity", [Val.intv 2])]] 0) :=
  c9_transform_no_mutation [[("quantity", [Val.intv 2])]] 0 (by decide)

/-! ## Pipeline orchestration (`dags/src/pipeline.py`,
`dags/src/ingestion/minio_client.py`)

The orchestrator is embedded as a function of a fault model (which
external I/O calls succeed) and the input batch. Its observable outcome
is the run result (`Except`, mirroring raised exceptions), the object
store state for this batch's keys (raw/ presence, processed/ presence,
quarantine/ content) and the ordered trace of externally visible
actions. -/

/-- The frame built from a list of validated records (`pd.DataFrame` of
`model_dump` dictionaries): one column per field, in field declaration
order. -/
def rowsToFrame (rows : List SalesRecord) : DataFrame :=
  [("order_id", rows.map (fun r => Val.str r.order_id)),
   ("customer_name", rows.map (fun r => Val.str r.customer_name)),
   ("customer_email", rows.map (fun r => Val.str r.customer_email)),
   ("customer_phone", rows.map (fun r => Val.str r.customer_phone)),
   ("customer_address", rows.map (fun r => Val.str r.customer_address)),
   ("product_title", rows.map (fun r => Val.str r.product_title)),
   ("product_rating", rows.map (fun r => Val.num r.product_rating)),
   ("discounted_price", rows.map (fun r => Val.num r.discounted_price)),
   ("original_price", rows.map (fun r => Val.num r.original_price)),
   ("discount_percentage", rows.map (fun r => Val.intv r.discount_percentage)),
   ("is_best_seller", rows.map (fun r => Val.boolv r.is_best_seller)),
   ("delivery_date", rows.map (fun r => Val.date r.delivery_date)),
   ("data_collected_at", rows.map (fun r => Val.date r.data_collected_at)),
   ("product_category", rows.map (fun r => Val.str r.product_category)),
   ("quantity", rows.map (fun r => Val.intv r.quantity)),
   ("order_date", rows.map (fun r => Val.date r.order_date))]

/-- Sites of I/O operations that can raise infrastructure errors
(`S3Error` / `psycopg2.Error` in the source). -/
inductive StepSite
  | connectMinio
  | statObject
  | getObject
  | putQuarantine
  | upsertDb (chunk : Nat)
  | copyObject
  | removeObject
deriving DecidableEq

/-- Raised (propagated) pipeline errors: Vault/config failures,
infrastructure I/O failures by site, and the dedicated
`ValueError("All records ... failed validation")` of
`_process_single_dataframe`, a distinct type from the I/O errors. -/
inductive PipelineError
  | configError
  | ioError (site : StepSite)
  | allRowsInvalid
deriving DecidableEq

/-- Which external calls succeed during this run. -/
structure FaultModel where
  vaultOk : Bool
  minioConnectOk : Bool
  statOk : Bool
  getOk : Bool
  putQuarantineOk : Bool
  upsertOk : Nat → Bool
  copyOk : Bool
  removeOk : Bool

/-- Externally visible actions, in execution order. -/
inductive Event
  | quarantinePut (rows : List InvalidRow)
  | load (df : DataFrame)
  | archiveCopy
  | archiveRemove
deriving DecidableEq

/-- Object-store state for the processed batch's keys. -/
structure StoreState where
  rawPresent : Bool
  processedPresent : Bool
  quarantine : Option (List InvalidRow)
deriving DecidableEq

/-- Before the run: the batch sits under raw/, nothing archived or
quarantined. -/
def initialStore : StoreState := ⟨true, false, none⟩

abbrev RunOutcome := Except PipelineError Unit

instance : DecidableEq RunOutcome := fun a b =>
  match a, b with
  | .ok (), .ok () => isTrue rfl
  | .error e1, .error e2 =>
      match decEq e1 e2 with
      | isTrue h => isTrue (by rw [h])
      | isFalse h => isFalse (by intro hc; cases hc; exact h rfl)
  | .ok _, .error _ => isFalse (by intro hc; cases hc)
  | .error _, .ok _ => isFalse (by intro hc; cases hc)

/-- Sequence two pipeline phases: a raised error propagates with the
store and trace as they were at the raise site. -/
def pipeSeq (x : RunOutcome × StoreState × List Event)
    (k : StoreState → List Event → RunOutcome × StoreState × List Event) :
    RunOutcome × StoreState × List Event :=
  match x with
  | (.ok _, st, tr) => k st tr
  | (.error e, st, tr) => (.error e, st, tr)

/-- Embeds `save_invalid_data_to_quarantine`: empty input is a no-op;
otherwise one `put_object` under quarantine/ which may raise. -/
def save_invalid_data_to_quarantine (fm : FaultModel) (invalid : List InvalidRow)
    (st : StoreState) (tr : List Event) : RunOutcome × StoreState × List Event :=
  if invalid.isEmpty then (.ok (), st, tr)
  else if fm.putQuarantineOk then
    (.ok (), { st with quarantine := some invalid }, tr ++ [.quarantinePut invalid])
  else (.error (.ioError .putQuarantine), st, tr)

/-- Sequentially `upsert_data` each transformed chunk; the chunk index
selects the fault-model entry for that database round trip. -/
def loadChunks (fm : FaultModel) (dfs : List DataFrame) (i : Nat)
    (st : StoreState) (tr : List Event) : RunOutcome × StoreState × List Event :=
  match dfs with
  | [] => (.ok (), st, tr)
  | df :: rest =>
      if fm.upsertOk i then loadChunks fm rest (i + 1) st (tr ++ [.load df])
      else (.error (.ioError (.upsertDb i)), st, tr)

/-- Embeds `_process_single_dataframe`: quarantine the invalid rows when
present, raise the dedicated `ValueError` when no row is valid (after
quarantining), else transform and load. -/
def process_single_dataframe (fm : FaultModel) (valid : List SalesRecord)
    (invalid : List InvalidRow) (st : StoreState) (tr : List Event) :
    RunOutcome × StoreState × List Event :=
  pipeSeq
    (if invalid.isEmpty then (.ok (), st, tr)
     else save_invalid_data_to_quarantine fm invalid st tr)
    fun st tr =>
      if valid.isEmpty then (.error .allRowsInvalid, st, tr)
      else loadChunks fm [transform_single_dataframe (rowsToFrame valid)] 0 st tr

/-- Embeds `_process_chunked_data`: collect the nonempty valid and
invalid chunks from the validation results, quarantine the concatenated
invalid rows once when nonempty, transform the valid chunks, load each;
it contains no check that any row was valid at all. -/
def process_chunked_data (fm : FaultModel)
    (results : List (List SalesRecord × List InvalidRow))
    (st : StoreState) (tr : List Event) : RunOutcome × StoreState × List Event :=
  pipeSeq
    (if ((results.map Prod.snd).flatten).isEmpty then (.ok (), st, tr)
     else save_invalid_data_to_quarantine fm ((results.map Prod.snd).flatten) st tr)
    fun st tr =>
      loadChunks fm
        (((results.map Prod.fst).filter (fun v => !v.isEmpty)).map
          (fun v => transform_single_dataframe (rowsToFrame v)))
        0 st tr

/-- The ingested batch: either one whole table or a sequence of chunk
tables (the `isinstance` branch in `run_pipeline`). -/
inductive PipelineInput
  | whole (rows : List SalesRecord)
  | chunked (chunks : List (List SalesRecord))

/-- Embeds `run_pipeline`: Vault, MinIO connect, stat and read, then
validation and processing — the `isinstance` test on the ingested data
is modelled as an exact discrimination between a whole table and a
stream of chunk tables — then
`move_processed_file` (copy to processed/, then remove from raw/) only
after everything before it succeeded. -/
def run_pipeline (fm : FaultModel) (input : PipelineInput) :
    RunOutcome × StoreState × List Event :=
  if ¬fm.vaultOk then (.error .configError, initialStore, [])
  else if ¬fm.minioConnectOk then (.error (.ioError .connectMinio), initialStore, [])
  else if ¬fm.statOk then (.error (.ioError .statObject), initialStore, [])
  else if ¬fm.getOk then (.error (.ioError .getObject), initialStore, [])
  else
    pipeSeq
      (match input with
       | .whole rows =>
           process_single_dataframe fm (validate_single_dataframe rows).1
             (validate_single_dataframe rows).2 initialStore []
       | .chunked chunks =>
           process_chunked_data fm (chunks.map validate_single_dataframe)
             initialStore [])
      fun st tr =>
        if fm.copyOk then
          if fm.removeOk then
            (.ok (), { st with processedPresent := true, rawPresent := false },
              tr ++ [.archiveCopy, .archiveRemove])
          else
            (.error (.ioError .removeObject),
              { st with processedPresent := true }, tr ++ [.archiveCopy])
        else (.error (.ioError .copyObject), st, tr)

/-- Frame property of a processing phase started at store `st` and trace
`tr`: it never touches the raw/ or processed/ locations and emits no
archive action. -/
def ProcFrame (x : RunOutcome × StoreState × List Event) (st : StoreState)
    (tr : List Event) : Prop :=
  x.2.1.rawPresent = st.rawPresent ∧
  x.2.1.processedPresent = st.processedPresent ∧
  ∃ evs, x.2.2 = tr ++ evs ∧
    ∀ e ∈ evs, e ≠ Event.archiveCopy ∧ e ≠ Event.archiveRemove

theorem ProcFrame_triv (o : RunOutcome) (st : StoreState) (tr : List Event) :
    ProcFrame (o, st, tr) st tr :=
  ⟨rfl, rfl, [], by simp, by simp⟩

theorem pipeSeq_frame (x : RunOutcome × StoreState × List Event)
    (k : StoreState → List Event → RunOutcome × StoreState × List Event)
    (st : StoreState) (tr : List Event) (hx : ProcFrame x st tr)
    (hk : ∀ st' tr', ProcFrame (k st' tr') st' tr') :
    ProcFrame (pipeSeq x k) st tr := by
  obtain ⟨o, st1, tr1⟩ := x
  cases o with
  | error e => exact hx
  | ok u =>
      obtain ⟨hr, hp, evs1, he1, hne1⟩ := hx
      obtain ⟨hr2, hp2, evs2, he2, hne2⟩ := hk st1 tr1
      refine ⟨hr2.trans hr, hp2.trans hp, evs1 ++ evs2, ?_, ?_⟩
      · show (k st1 tr1).2.2 = tr ++ (evs1 ++ evs2)
        rw [he2, show tr1 = tr ++ evs1 from he1, List.append_assoc]
      · intro e he
        rcases List.mem_append.mp he with h | h
        · exact hne1 e h
        · exact hne2 e h

theorem save_invalid_frame (fm : FaultModel) (invalid : List InvalidRow)
    (st : StoreState) (tr : List Event) :
    ProcFrame (save_invalid_data_to_quarantine fm invalid st tr) st tr := by
  unfold save_invalid_data_to_quarantine
  split
  · exact ProcFrame_triv _ _ _
  · split
    · exact ⟨rfl, rfl, [.quarantinePut invalid], rfl, by simp⟩
    · exact ProcFrame_triv _ _ _

theorem loadChunks_frame (fm : FaultModel) (dfs : List DataFrame) (i : Nat)
    (st : StoreState) (tr : List Event) :
    ProcFrame (loadChunks fm dfs i st tr) st tr := by
  induction dfs generalizing i tr with
  | nil => exact ProcFrame_triv _ _ _
  | cons df rest ih =>
      simp only [loadChunks]
      split
      · obtain ⟨hr, hp, evs, he, hne⟩ := ih (i + 1) (tr ++ [.load df])
        refine ⟨hr, hp, .load df :: evs, ?_, ?_⟩
        · rw [he, List.append_assoc]
          rfl
        · intro e hmem
          rcases List.mem_cons.mp hmem with h | h
          · subst h; exact ⟨by simp, by simp⟩
          · exact hne e h
      · exact ProcFrame_triv _ _ _

theorem process_single_frame (fm : FaultModel) (valid : List SalesRecord)
    (invalid : List InvalidRow) (st : StoreState) (tr : List Event) :
    ProcFrame (process_single_dataframe fm valid invalid st tr) st tr := by
  unfold process_single_dataframe
  refine pipeSeq_frame _ _ _ _ ?_ ?_
  · split
    · exact ProcFrame_triv _ _ _
    · exact save_invalid_frame fm invalid st tr
  · intro st' tr'
    split
    · exact ProcFrame_triv _ _ _
    · exact loadChunks_frame _ _ _ _ _

theorem process_chunked_frame (fm : FaultModel)
    (results : List (List SalesRecord × List InvalidRow))
    (st : StoreState) (tr : List Event) :
    ProcFrame (process_chunked_data fm results st tr) st tr := by
  unfold process_chunked_data
  refine pipeSeq_frame _ _ _ _ ?_ ?_
  · split
    · exact ProcFrame_triv _ _ _
    · exact save_invalid_frame fm _ st tr
  · intro st' tr'
    exact loadChunks_frame _ _ _ _ _

/-- C5: for every fault model and input batch, the source batch is moved
to processed/ only when everything before succeeded — (a) on a
successful run the batch has left raw/, sits in processed/, and the two
archive actions are the final actions of the trace, after all
quarantine/load actions; (b) on a failure anywhere before the archive
step, the archive is never attempted (no archive action in the trace)
and the batch is still in raw/ and not in processed/; (c) an archive
copy in the trace implies processing completed, i.e. the run succeeded
or failed only inside the archive move itself. -/
theorem c5_archive_only_after_success (fm : FaultModel) (input : PipelineInput) :
    ((run_pipeline fm input).1 = .ok () →
      (run_pipeline fm input).2.1.rawPresent = false ∧
      (run_pipeline fm input).2.1.processedPresent = true ∧
      ∃ tr0, (run_pipeline fm input).2.2 = tr0 ++ [.archiveCopy, .archiveRemove] ∧
        ∀ e ∈ tr0, e ≠ Event.archiveCopy ∧ e ≠ Event.archiveRemove) ∧
    (∀ e, (run_pipeline fm input).1 = .error e →
      e ≠ .ioError .copyObject → e ≠ .ioError .removeObject →
      (run_pipeline fm input).2.1.rawPresent = true ∧
      (run_pipeline fm input).2.1.processedPresent = false ∧
      Event.archiveCopy ∉ (run_pipeline fm input).2.2 ∧
      Event.archiveRemove ∉ (run_pipeline fm input).2.2) ∧
    (Event.archiveCopy ∈ (run_pipeline fm input).2.2 →
      (run_pipeline fm input).1 = .ok () ∨
      (run_pipeline fm input).1 = .error (.ioError .removeObject)) := by
  have hframe : ProcFrame
      (match input with
       | .whole rows =>
           process_single_dataframe fm (validate_single_dataframe rows).1
             (validate_single_dataframe rows).2 initialStore []
       | .chunked chunks =>
           process_chunked_data fm (chunks.map validate_single_dataframe)
             initialStore []) initialStore [] := by
    cases input with
    | whole rows => exact process_single_frame _ _ _ _ _
    | chunked chunks => exact process_chunked_frame _ _ _ _
  unfold run_pipeline
  split
  · exact ⟨fun h => (by cases h), fun e he h1 h2 => ⟨rfl, rfl, by simp, by simp⟩,
      by simp⟩
  split
  · exact ⟨fun h => (by cases h), fun e he h1 h2 => ⟨rfl, rfl, by simp, by simp⟩,
      by simp⟩
  split
  · exact ⟨fun h => (by cases h), fun e he h1 h2 => ⟨rfl, rfl, by simp, by simp⟩,
      by simp⟩
  split
  · exact ⟨fun h => (by cases h), fun e he h1 h2 => ⟨rfl, rfl, by simp, by simp⟩,
      by simp⟩
  case _ =>
    revert hframe
    generalize (match input with
       | .whole rows =>
           process_single_dataframe fm (validate_single_dataframe rows).1
             (validate_single_dataframe rows).2 initialStore []
       | .chunked chunks =>
           process_chunked_data fm (chunks.map validate_single_dataframe)
             initialStore []) = P
    intro hframe
    obtain ⟨o, stp, trp⟩ := P
    obtain ⟨hraw, hproc, evs, hevs, hne⟩ := hframe
    have hraw' : stp.rawPresent = true := hraw
    have hproc' : stp.processedPresent = false := hproc
    have htrp : trp = evs := by simpa using hevs
    cases o with
    | error e =>
        refine ⟨fun h => (by cases h), fun e' he' h1 h2 => ?_, fun hmem => ?_⟩
        · have he : e' = e := by
            simpa [pipeSeq] using he'.symm
          subst he
          refine ⟨hraw', hproc', ?_, ?_⟩
          · simp only [pipeSeq, htrp]
            intro hmem
            exact (hne _ hmem).1 rfl
          · simp only [pipeSeq, htrp]
            intro hmem
            exact (hne _ hmem).2 rfl
        · exfalso
          simp only [pipeSeq, htrp] at hmem
          exact (hne _ hmem).1 rfl
    | ok u =>
        simp only [pipeSeq]
        split
        · split
          · refine ⟨fun _ => ⟨rfl, rfl, trp, rfl, fun e he => ?_⟩,
              fun e' he' h1 h2 => (by cases he'), fun _ => Or.inl rfl⟩
            rw [htrp] at he
            exact hne e he
          · refine ⟨fun h => (by cases h), fun e' he' h1 h2 => ?_, fun _ => Or.inr rfl⟩
            exfalso
            have : e' = PipelineError.ioError StepSite.removeObject := by
              simpa using he'.symm
            exact h2 this
        · refine ⟨fun h => (by cases h), fun e' he' h1 h2 => ?_, fun hmem => ?_⟩
          · exfalso
            have : e' = PipelineError.ioError StepSite.copyObject := by
              simpa using he'.symm
            exact h1 this
          · exfalso
            rw [htrp] at hmem
            exact (hne _ hmem).1 rfl

/-- The fault model in which every external call succeeds. -/
def fmOk : FaultModel :=
  ⟨true, true, true, true, true, fun _ => true, true, true⟩

/-- A row whose only invalid field is `quantity = 0` (the quantity
minimum is 1), so a batch consisting of it alone has zero valid rows. -/
def c2Row : SalesRecord where
  order_id := "ORD1234567"
  customer_name := "Jane Doe"
  customer_email := "jane.doe@example.com"
  customer_phone := "555-123-4567"
  customer_address := "1 Main St"
  product_title := "Widget"
  product_rating := 4
  discounted_price := 50
  original_price := 100
  discount_percentage := 50
  is_best_seller := false
  delivery_date := 20
  data_collected_at := 20
  product_category := "Gadgets"
  quantity := 0
  order_date := 20

/-- C2 (failing input): a chunked batch whose single chunk contains one
invalid row has zero valid rows, yet `_process_chunked_data` raises no
error — the run completes with `.ok`, and the batch is archived to
processed/ (raw/ emptied), even though the invalid rows were
quarantined. Only the whole-batch path `_process_single_dataframe`
raises the dedicated all-rows-invalid `ValueError` (final conjunct),
as the claim and the spec require for both paths. -/
theorem c2_chunked_all_invalid_no_error :
    (validate_single_dataframe [c2Row]).1 = [] ∧
    (run_pipeline fmOk (.chunked [[c2Row]])).1 = .ok () ∧
    (run_pipeline fmOk (.chunked [[c2Row]])).2.1.quarantine.isSome = true ∧
    (run_pipeline fmOk (.chunked [[c2Row]])).2.1.processedPresent = true ∧
    (run_pipeline fmOk (.chunked [[c2Row]])).2.1.rawPresent = false ∧
    (run_pipeline fmOk (.whole [c2Row])).1 = .error .allRowsInvalid := by
  with_unfolding_all decide

/-- Witness for C5 at a successful concrete run (all faults off, one
valid row): the batch left raw/, is in processed/, and the archive
actions close the trace. -/
theorem c5_archive_only_after_success_witness :
    (run_pipeline fmOk (.whole [c1Row])).2.1.rawPresent = false ∧
    (run_pipeline fmOk (.whole [c1Row])).2.1.processedPresent = true ∧
    ∃ tr0, (run_pipeline fmOk (.whole [c1Row])).2.2 =
        tr0 ++ [.archiveCopy, .archiveRemove] ∧
      ∀ e ∈ tr0, e ≠ Event.archiveCopy ∧ e ≠ Event.archiveRemove :=
  (c5_archive_only_after_success fmOk (.whole [c1Row])).1
    (by with_unfolding_all decide)

/-! ## Star-schema loader (`dags/src/loading/postgres_loader.py`)

The database is modelled per table: each dimension is an
insertion-ordered association list from the business key to a row
holding the serial surrogate id and the mutable attributes, together
with the sequence counter for the next id; the fact table is an
association list keyed by `order_id`. A transformed row is given the
typed view `LoadRow` of the columns the loader reads. -/

/-- Association-list lookup by key. -/
def lookupAssoc {K B : Type} [DecidableEq K] : List (K × B) → K → Option B
  | [], _ => none
  | (k', b) :: rest, k => if k' = k then some b else lookupAssoc rest k

/-- Association-list write: replace the binding in place when the key is
present, else append. -/
def upsertAssoc {K B : Type} [DecidableEq K] : List (K × B) → K → B → List (K × B)
  | [], k, b => [(k, b)]
  | (k', b') :: rest, k, b =>
      if k' = k then (k, b) :: rest else (k', b') :: upsertAssoc rest k b

/-- First-occurrence deduplication by key
(`DataFrame.drop_duplicates(subset=key)`, default `keep="first"`). -/
def dedupByKeyAux {α K : Type} [DecidableEq K] (f : α → K) (seen : List K) :
    List α → List α
  | [] => []
  | x :: xs =>
      if f x ∈ seen then dedupByKeyAux f seen xs
      else x :: dedupByKeyAux f (f x :: seen) xs

def dedupByKey {α K : Type} [DecidableEq K] (f : α → K) (l : List α) : List α :=
  dedupByKeyAux f [] l

/-- One persisted dimension row: serial surrogate id plus mutable
attributes. -/
structure DimRow (A : Type) where
  id : Int
  attrs : A
deriving DecidableEq

/-- A dimension table with its serial id counter. -/
structure Dim (K A : Type) where
  rows : List (K × DimRow A)
  nextId : Int
deriving DecidableEq

/-- `INSERT ... ON CONFLICT (key) DO UPDATE SET <attributes>`: an
existing key keeps its surrogate id and takes the new attributes; a new
key is appended with the next serial id. -/
def Dim.upsertRow {K A : Type} [DecidableEq K] (d : Dim K A) (k : K) (a : A) :
    Dim K A :=
  match lookupAssoc d.rows k with
  | some row => { d with rows := upsertAssoc d.rows k ⟨row.id, a⟩ }
  | none => ⟨d.rows ++ [(k, ⟨d.nextId, a⟩)], d.nextId + 1⟩

/-- `INSERT ... ON CONFLICT (key) DO NOTHING`. -/
def Dim.insertIgnore {K A : Type} [DecidableEq K] (d : Dim K A) (k : K) (a : A) :
    Dim K A :=
  match lookupAssoc d.rows k with
  | some _ => d
  | none => ⟨d.rows ++ [(k, ⟨d.nextId, a⟩)], d.nextId + 1⟩

/-- Surrogate id of a business key. -/
def Dim.idOf {K A : Type} [DecidableEq K] (d : Dim K A) (k : K) : Option Int :=
  (lookupAssoc d.rows k).map DimRow.id

structure CustomerAttrs where
  customer_name : String
  phone_redacted : String
  address_redacted : String
deriving DecidableEq, Inhabited

structure ProductAttrs where
  product_rating : ℚ
  is_best_seller : Bool
deriving DecidableEq, Inhabited

/-- Attributes of `dim_date`, derived from the date at insert time. -/
structure DateAttrs where
  year : Int
  month : Int
  day : Int
  quarter : Int
  day_of_week : Int
  week_of_year : Int
  is_weekend : Bool
deriving DecidableEq

/-- Calendar decomposition of a day number. With dates modelled as plain
day numbers this is a stand-in decomposition; the claims depend only on
it being a pure function of the date, computed once at insert. -/
def dateAttrsOf (d : Int) : DateAttrs :=
  ⟨d / 365, (d / 30) % 12 + 1, d % 30 + 1, ((d / 30) % 12) / 3 + 1,
   d % 7, (d / 7) % 53 + 1, decide (5 ≤ d % 7)⟩

/-- Typed view of one transformed row as read by the loader. -/
structure LoadRow where
  order_id : String
  customer_name : String
  customer_email_hash : String
  customer_phone_redacted : String
  customer_address_redacted : String
  product_title : String
  product_category : String
  product_rating : ℚ
  is_best_seller : Bool
  order_date : Int
  delivery_date : Option Int
  quantity : Int
  discounted_price : ℚ
  original_price : ℚ
  discount_percentage : Int
  profit : ℚ
  data_collected_at : Int
deriving DecidableEq

def custKey (r : LoadRow) : String := r.customer_email_hash

def custAttrs (r : LoadRow) : CustomerAttrs :=
  ⟨r.customer_name, r.customer_phone_redacted, r.customer_address_redacted⟩

def prodKey (r : LoadRow) : String × String := (r.product_title, r.product_category)

def prodAttrs (r : LoadRow) : ProductAttrs := ⟨r.product_rating, r.is_best_seller⟩

/-- One persisted fact row (wall-clock `updated_at` excluded). -/
structure FactRow where
  customer_id : Int
  product_id : Int
  order_date_id : Int
  delivery_date_id : Option Int
  quantity : Int
  discounted_price : ℚ
  original_price : ℚ
  discount_percentage : Int
  profit : ℚ
  data_collected_at : Int
deriving DecidableEq

/-- The analytics star schema. -/
structure AnalyticsDB where
  dim_customer : Dim String CustomerAttrs
  dim_product : Dim (String × String) ProductAttrs
  dim_date : Dim Int DateAttrs
  fact_sales : List (String × FactRow)
deriving DecidableEq

/-- Fresh database: empty tables, serial counters at 1. -/
def emptyDB : AnalyticsDB := ⟨⟨[], 1⟩, ⟨[], 1⟩, ⟨[], 1⟩, []⟩

/-- Embeds `upsert_dimension_customer` on the customer dimension:
deduplicate the batch by `email_hash` (keep first) and upsert each. -/
def custDimStep (d : Dim String CustomerAttrs) (rows : List LoadRow) :
    Dim String CustomerAttrs :=
  (dedupByKey custKey rows).foldl (fun d r => d.upsertRow (custKey r) (custAttrs r)) d

/-- Embeds `upsert_dimension_product`: deduplicate by
`(product_title, product_category)` and upsert each. -/
def prodDimStep (d : Dim (String × String) ProductAttrs) (rows : List LoadRow) :
    Dim (String × String) ProductAttrs :=
  (dedupByKey prodKey rows).foldl (fun d r => d.upsertRow (prodKey r) (prodAttrs r)) d

/-- The date values collected by `upsert_dimension_date`:
`pd.concat([df["order_date"], df["delivery_date"]]).dropna().unique()` —
all order dates then all delivery dates, nulls dropped, first
occurrences kept. -/
def datesOf (rows : List LoadRow) : List Int :=
  dedupByKey id (rows.map LoadRow.order_date ++ rows.filterMap LoadRow.delivery_date)

/-- Embeds the insert loop of `upsert_dimension_date`: insert each
collected date with its derived attributes, `ON CONFLICT DO NOTHING`. -/
def dateDimStep (d : Dim Int DateAttrs) (rows : List LoadRow) : Dim Int DateAttrs :=
  (datesOf rows).foldl (fun d dt => d.insertIgnore dt (dateAttrsOf dt)) d

/-- The fact row written for one input row, with the dimension ids
resolved against the state the loader has just built (the id columns
assigned during the dimension steps; an absent id cannot occur for rows
of the processed batch since their keys were upserted in this step). -/
def resolveFact (db : AnalyticsDB) (r : LoadRow) : FactRow :=
  { customer_id := (db.dim_customer.idOf (custKey r)).getD 0
  , product_id := (db.dim_product.idOf (prodKey r)).getD 0
  , order_date_id := (db.dim_date.idOf r.order_date).getD 0
  , delivery_date_id := r.delivery_date.bind db.dim_date.idOf
  , quantity := r.quantity
  , discounted_price := r.discounted_price
  , original_price := r.original_price
  , discount_percentage := r.discount_percentage
  , profit := r.profit
  , data_collected_at := r.data_collected_at }

/-- Embeds `_upsert_single_dataframe`: the three dimension steps in
order, then the fact loop upserting by `order_id`. -/
def upsert_single_dataframe (db : AnalyticsDB) (rows : List LoadRow) : AnalyticsDB :=
  let db' : AnalyticsDB :=
    ⟨custDimStep db.dim_customer rows, prodDimStep db.dim_product rows,
      dateDimStep db.dim_date rows, db.fact_sales⟩
  { db' with
    fact_sales :=
      rows.foldl (fun fs r => upsertAssoc fs r.order_id (resolveFact db' r))
        db'.fact_sales }

/-- Embeds `_upsert_chunked_dataframes`: run the full four-step sequence
for each chunk, sequentially. -/
def upsert_chunked_dataframes (db : AnalyticsDB) (chunks : List (List LoadRow)) :
    AnalyticsDB :=
  chunks.foldl upsert_single_dataframe db

/-! ### C10: null handling in `upsert_fact_sales` parameter conversion

The per-row SQL parameters of `upsert_fact_sales` are built with
`int(row["customer_id"])`, `int(row["product_id"])`,
`int(row["order_date_id"])` unconditionally, and
`int(row["delivery_date_id"]) if pd.notna(...) else None`. A null (NaN)
in the three unconditional columns makes `int(...)` raise; a null
delivery id becomes SQL NULL. -/

/-- A row as it reaches `upsert_fact_sales`: the dimension id columns
may hold nulls (`none`). -/
structure FactRowSource where
  order_id : String
  customer_id : Option Int
  product_id : Option Int
  order_date_id : Option Int
  delivery_date_id : Option Int
  quantity : Int
  discounted_price : ℚ
  original_price : ℚ
  discount_percentage : Int
  profit : ℚ
  data_collected_at : Int
deriving DecidableEq

/-- Python `int(x)` on a possibly-null cell: raises on null. -/
def intOrFail : Option Int → Except String Int
  | some n => .ok n
  | none => .error "cannot convert NA to integer"

/-- The parameter tuple of one `fact_sales` insert, in source order:
the three mandatory foreign keys converted with `int(...)`, the
delivery id passed through as an optional value (SQL NULL when null). -/
def factSalesParams (r : FactRowSource) :
    Except String (String × Int × Int × Int × Option Int) := do
  let cid ← intOrFail r.customer_id
  let pid ← intOrFail r.product_id
  let odid ← intOrFail r.order_date_id
  .ok (r.order_id, cid, pid, odid, r.delivery_date_id)

/-- Embeds the row loop of `upsert_fact_sales`: build the parameters of
every row in order, raising on the first failing row. -/
def upsert_fact_sales (rows : List FactRowSource) :
    Except String (List (String × Int × Int × Int × Option Int)) :=
  match rows with
  | [] => .ok []
  | r :: rest =>
      match factSalesParams r with
      | .error e => .error e
      | .ok p =>
          match upsert_fact_sales rest with
          | .error e => .error e
          | .ok ps => .ok (p :: ps)

theorem upsert_fact_sales_error_of_mem (rows : List FactRowSource)
    (r : FactRowSource) (hr : r ∈ rows) (he : (factSalesParams r).isOk = false) :
    (upsert_fact_sales rows).isOk = false := by
  induction rows with
  | nil => cases hr
  | cons x xs ih =>
      rcases List.mem_cons.mp hr with h | h
      · subst h
        cases hfp : factSalesParams r with
        | ok v => rw [hfp] at he; cases he
        | error e => simp [upsert_fact_sales, hfp, Except.isOk, Except.toBool]
      · cases hfp : factSalesParams x with
        | error e => simp [upsert_fact_sales, hfp, Except.isOk, Except.toBool]
        | ok v =>
            have hxs := ih h
            cases hm : upsert_fact_sales xs with
            | ok l => rw [hm] at hxs; cases hxs
            | error e => simp [upsert_fact_sales, hfp, hm, Except.isOk, Except.toBool]

/-- C10: in the `upsert_fact_sales` parameter construction, a null
`delivery_date_id` is tolerated and passed through as SQL NULL, while
`customer_id`, `product_id` and `order_date_id` are converted with
`int(...)` unconditionally — a null in any of those three makes the
parameter construction (and hence the fact-load step, final conjunct)
raise instead of inserting a NULL foreign key. -/
theorem c10_fact_upsert_null_handling (r : FactRowSource) :
    (∀ c p o, r.customer_id = some c → r.product_id = some p →
      r.order_date_id = some o →
      factSalesParams r = .ok (r.order_id, c, p, o, r.delivery_date_id)) ∧
    (r.customer_id = none → (factSalesParams r).isOk = false) ∧
    (r.product_id = none → (factSalesParams r).isOk = false) ∧
    (r.order_date_id = none → (factSalesParams r).isOk = false) ∧
    (∀ rows, r ∈ rows → r.order_date_id = none →
      (upsert_fact_sales rows).isOk = false) := by
  refine ⟨?_, ?_, ?_, ?_, ?_⟩
  · intro c p o hc hp ho
    simp [factSalesParams, intOrFail, hc, hp, ho, bind, Except.bind]
  · intro hc
    simp [factSalesParams, intOrFail, hc, bind, Except.bind, Except.isOk, Except.toBool]
  · intro hp
    cases hc : r.customer_id <;>
      simp [factSalesParams, intOrFail, hc, hp, bind, Except.bind, Except.isOk, Except.toBool]
  · intro ho
    cases hc : r.customer_id <;> cases hp : r.product_id <;>
      simp [factSalesParams, intOrFail, hc, hp, ho, bind, Except.bind, Except.isOk, Except.toBool]
  · intro rows hmem ho
    refine upsert_fact_sales_error_of_mem rows r hmem ?_
    cases hc : r.customer_id <;> cases hp : r.product_id <;>
      simp [factSalesParams, intOrFail, hc, hp, ho, bind, Except.bind, Except.isOk, Except.toBool]

/-- Witness for C10 at concrete rows: a row with only the delivery id
null is accepted with SQL NULL in the delivery slot; a row with a null
`order_date_id` makes its batch's fact load fail. -/
theorem c10_fact_upsert_null_handling_witness :
    factSalesParams ⟨"ORDA", some 1, some 2, some 3, none, 1, 10, 20, 5, 1, 7⟩ =
      .ok ("ORDA", 1, 2, 3, none) ∧
    (upsert_fact_sales
        [⟨"ORDB", some 1, some 2, none, some 4, 1, 10, 20, 5, 1, 7⟩]).isOk = false :=
  ⟨(c10_fact_upsert_null_handling
      ⟨"ORDA", some 1, some 2, some 3, none, 1, 10, 20, 5, 1, 7⟩).1
      1 2 3 rfl rfl rfl,
   (c10_fact_upsert_null_handling
      ⟨"ORDB", some 1, some 2, none, some 4, 1, 10, 20, 5, 1, 7⟩).2.2.2.2
      _ (by simp) rfl⟩

/-! ### C4: chunked-versus-whole loading

Generic lemmas about association lists, dimension upserts and
first-occurrence deduplication, used to compare the chunked and the
whole-batch load. -/

section AssocLemmas

variable {K B : Type} [DecidableEq K]

theorem lookupAssoc_append (l1 l2 : List (K × B)) (k : K) :
    lookupAssoc (l1 ++ l2) k =
      match lookupAssoc l1 k with
      | some b => some b
      | none => lookupAssoc l2 k := by
  induction l1 with
  | nil => simp [lookupAssoc]
  | cons p rest ih =>
      obtain ⟨k', b'⟩ := p
      by_cases h : k' = k <;> simp [lookupAssoc, h, ih]

theorem lookupAssoc_upsertAssoc_self (l : List (K × B)) (k : K) (b : B) :
    lookupAssoc (upsertAssoc l k b) k = some b := by
  induction l with
  | nil => simp [upsertAssoc, lookupAssoc]
  | cons p rest ih =>
      obtain ⟨k', b'⟩ := p
      by_cases h : k' = k <;> simp [upsertAssoc, lookupAssoc, h, ih]

theorem lookupAssoc_upsertAssoc_other (l : List (K × B)) (k k0 : K) (b : B)
    (h : k ≠ k0) : lookupAssoc (upsertAssoc l k b) k0 = lookupAssoc l k0 := by
  induction l with
  | nil => simp [upsertAssoc, lookupAssoc, h]
  | cons p rest ih =>
      obtain ⟨k', b'⟩ := p
      by_cases h' : k' = k
      · subst h'; simp [upsertAssoc, lookupAssoc, h]
      · by_cases h0 : k' = k0 <;>
          simp [upsertAssoc, lookupAssoc, h', h0, ih, Ne.symm h]

theorem upsertAssoc_self (l : List (K × B)) (k : K) (b : B)
    (h : lookupAssoc l k = some b) : upsertAssoc l k b = l := by
  induction l with
  | nil => simp [lookupAssoc] at h
  | cons p rest ih =>
      obtain ⟨k', b'⟩ := p
      by_cases hk : k' = k
      · subst hk
        have hb : b' = b := by simpa [lookupAssoc] using h
        subst hb
        simp [upsertAssoc]
      · simp only [lookupAssoc, if_neg hk] at h
        simp [upsertAssoc, hk, ih h]

theorem mem_of_lookupAssoc (l : List (K × B)) (k : K) (b : B)
    (h : lookupAssoc l k = some b) : (k, b) ∈ l := by
  induction l with
  | nil => simp [lookupAssoc] at h
  | cons p rest ih =>
      obtain ⟨k', b'⟩ := p
      by_cases hk : k' = k
      · subst hk
        have hb : b' = b := by simpa [lookupAssoc] using h
        subst hb
        exact List.mem_cons_self _ _
      · simp only [lookupAssoc, if_neg hk] at h
        exact List.mem_cons_of_mem _ (ih h)

theorem map_upsertAssoc {C : Type} (g : B → C) (l : List (K × B)) (k : K) (b : B) :
    (upsertAssoc l k b).map (fun p => (p.1, g p.2)) =
      upsertAssoc (l.map (fun p => (p.1, g p.2))) k (g b) := by
  induction l with
  | nil => simp [upsertAssoc]
  | cons p rest ih =>
      obtain ⟨k', b'⟩ := p
      by_cases h : k' = k <;> simp [upsertAssoc, h, ih]

end AssocLemmas

section DimLemmas

variable {K A : Type} [DecidableEq K]

theorem Dim.idOf_upsertRow_present (d : Dim K A) (k k0 : K) (a : A)
    (h : (d.idOf k0).isSome = true) : (d.upsertRow k a).idOf k0 = d.idOf k0 := by
  unfold Dim.upsertRow
  cases hl : lookupAssoc d.rows k with
  | some row =>
      by_cases hk : k = k0
      · subst hk
        simp [Dim.idOf, lookupAssoc_upsertAssoc_self, hl]
      · simp [Dim.idOf, lookupAssoc_upsertAssoc_other d.rows k k0 _ hk]
  | none =>
      simp only [Dim.idOf] at h ⊢
      rw [lookupAssoc_append]
      cases hl0 : lookupAssoc d.rows k0 with
      | some row0 => simp
      | none => rw [hl0] at h; simp at h

theorem Dim.idOf_upsertRow_isSome (d : Dim K A) (k k0 : K) (a : A)
    (h : (d.idOf k0).isSome = true) :
    ((d.upsertRow k a).idOf k0).isSome = true := by
  rw [Dim.idOf_upsertRow_present d k k0 a h]
  exact h

theorem Dim.idOf_upsertRow_self_isSome (d : Dim K A) (k : K) (a : A) :
    ((d.upsertRow k a).idOf k).isSome = true := by
  unfold Dim.upsertRow
  cases hl : lookupAssoc d.rows k with
  | some row => simp [Dim.idOf, lookupAssoc_upsertAssoc_self]
  | none =>
      simp only [Dim.idOf]
      rw [lookupAssoc_append, hl]
      simp [lookupAssoc]

theorem Dim.lookup_insertIgnore_present (d : Dim K A) (k k0 : K) (a : A)
    (row0 : DimRow A) (h : lookupAssoc d.rows k0 = some row0) :
    lookupAssoc (d.insertIgnore k a).rows k0 = some row0 := by
  unfold Dim.insertIgnore
  cases hl : lookupAssoc d.rows k with
  | some row => exact h
  | none =>
      rw [lookupAssoc_append, h]

theorem Dim.idOf_insertIgnore_isSome (d : Dim K A) (k k0 : K) (a : A)
    (h : (d.idOf k0).isSome = true) :
    ((d.insertIgnore k a).idOf k0).isSome = true := by
  simp only [Dim.idOf] at h ⊢
  cases hl : lookupAssoc d.rows k0 with
  | none => rw [hl] at h; simp at h
  | some row0 => rw [Dim.lookup_insertIgnore_present d k k0 a row0 hl]; rfl

theorem Dim.idOf_insertIgnore_self_isSome (d : Dim K A) (k : K) (a : A) :
    ((d.insertIgnore k a).idOf k).isSome = true := by
  unfold Dim.insertIgnore
  cases hl : lookupAssoc d.rows k with
  | some row => simp [Dim.idOf, hl]
  | none =>
      simp only [Dim.idOf]
      rw [lookupAssoc_append, hl]
      simp [lookupAssoc]

end DimLemmas

section DimFoldLemmas

variable {K A ρ : Type} [DecidableEq K]

/-- Every attribute value stored in the dimension agrees with `f` on its
key. -/
def DimAttrsF (f : K → A) (d : Dim K A) : Prop :=
  ∀ k row, lookupAssoc d.rows k = some row → row.attrs = f k

theorem upsertRow_present_of_consistent (f : K → A) (d : Dim K A) (k : K)
    (row : DimRow A) (hd : DimAttrsF f d) (hl : lookupAssoc d.rows k = some row)
    (a : A) (ha : a = f k) : d.upsertRow k a = d := by
  unfold Dim.upsertRow
  rw [hl]
  have hrow : (⟨row.id, a⟩ : DimRow A) = row := by
    have := hd k row hl
    cases row
    simp_all
  show ({ d with rows := upsertAssoc d.rows k ⟨row.id, a⟩ } : Dim K A) = d
  rw [hrow, upsertAssoc_self _ _ _ hl]

theorem DimAttrsF_upsertRow (f : K → A) (d : Dim K A) (k : K) (a : A)
    (hd : DimAttrsF f d) (ha : a = f k) : DimAttrsF f (d.upsertRow k a) := by
  intro k0 row0 h0
  unfold Dim.upsertRow at h0
  cases hl : lookupAssoc d.rows k with
  | some row =>
      rw [hl] at h0
      by_cases hk : k = k0
      · subst hk
        rw [lookupAssoc_upsertAssoc_self] at h0
        have : row0 = ⟨row.id, a⟩ := by injection h0 with h; exact h.symm
        rw [this, ha]
      · rw [lookupAssoc_upsertAssoc_other _ _ _ _ hk] at h0
        exact hd k0 row0 h0
  | none =>
      rw [hl] at h0
      rw [lookupAssoc_append] at h0
      cases hll : lookupAssoc d.rows k0 with
      | some row1 =>
          rw [hll] at h0
          have : row0 = row1 := by injection h0 with h; exact h.symm
          rw [this]
          exact hd k0 row1 hll
      | none =>
          rw [hll] at h0
          by_cases hk : k = k0
          · subst hk
            have : row0 = ⟨d.nextId, a⟩ := by
              simpa [lookupAssoc] using h0.symm
            rw [this, ha]
          · simp [lookupAssoc, hk] at h0

theorem DimAttrsF_insertIgnore (f : K → A) (d : Dim K A) (k : K)
    (hd : DimAttrsF f d) : DimAttrsF f (d.insertIgnore k (f k)) := by
  intro k0 row0 h0
  unfold Dim.insertIgnore at h0
  cases hl : lookupAssoc d.rows k with
  | some row =>
      rw [hl] at h0
      exact hd k0 row0 h0
  | none =>
      rw [hl] at h0
      rw [lookupAssoc_append] at h0
      cases hll : lookupAssoc d.rows k0 with
      | some row1 =>
          rw [hll] at h0
          have : row0 = row1 := by injection h0 with h; exact h.symm
          rw [this]
          exact hd k0 row1 hll
      | none =>
          rw [hll] at h0
          by_cases hk : k = k0
          · subst hk
            have : row0 = ⟨d.nextId, f k⟩ := by
              simpa [lookupAssoc] using h0.symm
            rw [this]
          · simp [lookupAssoc, hk] at h0

theorem foldl_upsert_dedupAux (key : ρ → K) (attrs : ρ → A) (f : K → A)
    (rows : List ρ) : ∀ (seen : List K) (d : Dim K A), DimAttrsF f d →
    (∀ r ∈ rows, attrs r = f (key r)) →
    (∀ k ∈ seen, (d.idOf k).isSome = true) →
    (dedupByKeyAux key seen rows).foldl (fun d r => d.upsertRow (key r) (attrs r)) d =
      rows.foldl (fun d r => d.upsertRow (key r) (attrs r)) d := by
  induction rows with
  | nil => intro _ _ _ _ _; rfl
  | cons r rs ih =>
      intro seen d hd hrows hseen
      by_cases hmem : key r ∈ seen
      · rw [dedupByKeyAux, if_pos hmem, List.foldl_cons]
        have hsome := hseen _ hmem
        obtain ⟨row, hrow⟩ : ∃ row, lookupAssoc d.rows (key r) = some row := by
          simp only [Dim.idOf] at hsome
          cases h' : lookupAssoc d.rows (key r) with
          | some row => exact ⟨row, rfl⟩
          | none => rw [h'] at hsome; simp at hsome
        rw [upsertRow_present_of_consistent f d (key r) row hd hrow _
          (hrows r (List.mem_cons_self _ _))]
        exact ih seen d hd (fun x hx => hrows x (List.mem_cons_of_mem _ hx)) hseen
      · rw [dedupByKeyAux, if_neg hmem, List.foldl_cons, List.foldl_cons]
        refine ih (key r :: seen) (d.upsertRow (key r) (attrs r))
          (DimAttrsF_upsertRow f d _ _ hd (hrows r (List.mem_cons_self _ _)))
          (fun x hx => hrows x (List.mem_cons_of_mem _ hx)) ?_
        intro k hk
        rcases List.mem_cons.mp hk with h | h
        · subst h
          exact Dim.idOf_upsertRow_self_isSome d _ _
        · exact Dim.idOf_upsertRow_isSome d _ _ _ (hseen k h)

/-- Under key-determined attributes, upserting the deduplicated batch
equals upserting every row. -/
theorem dim_step_eq_foldl (key : ρ → K) (attrs : ρ → A) (f : K → A)
    (d : Dim K A) (rows : List ρ) (hd : DimAttrsF f d)
    (hrows : ∀ r ∈ rows, attrs r = f (key r)) :
    (dedupByKey key rows).foldl (fun d r => d.upsertRow (key r) (attrs r)) d =
      rows.foldl (fun d r => d.upsertRow (key r) (attrs r)) d :=
  foldl_upsert_dedupAux key attrs f rows [] d hd hrows (by simp)

theorem DimAttrsF_foldl (key : ρ → K) (attrs : ρ → A) (f : K → A)
    (rows : List ρ) : ∀ (d : Dim K A), DimAttrsF f d →
    (∀ r ∈ rows, attrs r = f (key r)) →
    DimAttrsF f (rows.foldl (fun d r => d.upsertRow (key r) (attrs r)) d) := by
  induction rows with
  | nil => intro d hd _; exact hd
  | cons r rs ih =>
      intro d hd hrows
      rw [List.foldl_cons]
      exact ih _ (DimAttrsF_upsertRow f d _ _ hd (hrows r (List.mem_cons_self _ _)))
        (fun x hx => hrows x (List.mem_cons_of_mem _ hx))

/-- Under key-determined attributes, processing the chunks sequentially
builds the same dimension as processing the concatenation. -/
theorem dim_fold_chunks_eq (key : ρ → K) (attrs : ρ → A) (f : K → A)
    (chunks : List (List ρ)) : ∀ (d : Dim K A), DimAttrsF f d →
    (∀ r ∈ chunks.flatten, attrs r = f (key r)) →
    chunks.foldl
        (fun d ch => (dedupByKey key ch).foldl
          (fun d r => d.upsertRow (key r) (attrs r)) d) d =
      chunks.flatten.foldl (fun d r => d.upsertRow (key r) (attrs r)) d := by
  induction chunks with
  | nil => intro d _ _; rfl
  | cons ch rest ih =>
      intro d hd hrows
      have hch : ∀ r ∈ ch, attrs r = f (key r) := fun r hr =>
        hrows r (by simp [List.mem_flatten]; exact Or.inl hr)
      have hrest : ∀ r ∈ rest.flatten, attrs r = f (key r) := fun r hr =>
        hrows r (by simp only [List.flatten_cons, List.mem_append]; exact Or.inr hr)
      rw [List.foldl_cons, List.flatten_cons, List.foldl_append,
        dim_step_eq_foldl key attrs f d ch hd hch]
      exact ih _ (DimAttrsF_foldl key attrs f ch d hd hch) hrest

/-- Under pairwise key-determined attributes, the chunk-by-chunk
dimension build from the empty dimension equals the whole-batch build. -/
theorem dim_chunks_eq_whole (key : ρ → K) (attrs : ρ → A) [Inhabited A]
    (chunks : List (List ρ))
    (hcons : ∀ r ∈ chunks.flatten, ∀ r' ∈ chunks.flatten,
      key r = key r' → attrs r = attrs r') :
    chunks.foldl
        (fun d ch => (dedupByKey key ch).foldl
          (fun d r => d.upsertRow (key r) (attrs r)) d) (⟨[], 1⟩ : Dim K A) =
      (dedupByKey key chunks.flatten).foldl
        (fun d r => d.upsertRow (key r) (attrs r)) (⟨[], 1⟩ : Dim K A) := by
  set rows := chunks.flatten with hrowsdef
  set f : K → A := fun k =>
    ((rows.find? (fun r => decide (key r = k))).map attrs).getD default with hf
  have hrows : ∀ r ∈ rows, attrs r = f (key r) := by
    intro r hr
    cases hfind : rows.find? (fun r' => decide (key r' = key r)) with
    | none =>
        exfalso
        have := List.find?_eq_none.mp hfind r hr
        simp at this
    | some r' =>
        have hkey : key r' = key r := by
          have := List.find?_some hfind
          simpa using this
        have hmem : r' ∈ rows := List.mem_of_find?_eq_some hfind
        have hattrs : attrs r = attrs r' := hcons r hr r' hmem hkey.symm
        simp [hf, hfind, hattrs]
  have hempty : DimAttrsF f (⟨[], 1⟩ : Dim K A) := by
    intro k row h
    simp [lookupAssoc] at h
  rw [dim_fold_chunks_eq key attrs f chunks _ hempty hrows,
    dim_step_eq_foldl key attrs f _ rows hempty hrows]

end DimFoldLemmas

theorem upsert_single_dims (db : AnalyticsDB) (rows : List LoadRow) :
    (upsert_single_dataframe db rows).dim_customer = custDimStep db.dim_customer rows ∧
    (upsert_single_dataframe db rows).dim_product = prodDimStep db.dim_product rows ∧
    (upsert_single_dataframe db rows).dim_date = dateDimStep db.dim_date rows :=
  ⟨rfl, rfl, rfl⟩

theorem upsert_chunked_dim_customer (chunks : List (List LoadRow)) :
    ∀ db : AnalyticsDB, (upsert_chunked_dataframes db chunks).dim_customer =
      chunks.foldl (fun d ch => custDimStep d ch) db.dim_customer := by
  induction chunks with
  | nil => intro db; rfl
  | cons ch rest ih =>
      intro db
      show (upsert_chunked_dataframes (upsert_single_dataframe db ch) rest).dim_customer = _
      rw [ih (upsert_single_dataframe db ch)]
      rfl

theorem upsert_chunked_dim_product (chunks : List (List LoadRow)) :
    ∀ db : AnalyticsDB, (upsert_chunked_dataframes db chunks).dim_product =
      chunks.foldl (fun d ch => prodDimStep d ch) db.dim_product := by
  induction chunks with
  | nil => intro db; rfl
  | cons ch rest ih =>
      intro db
      show (upsert_chunked_dataframes (upsert_single_dataframe db ch) rest).dim_product = _
      rw [ih (upsert_single_dataframe db ch)]
      rfl

theorem upsert_chunked_dim_date (chunks : List (List LoadRow)) :
    ∀ db : AnalyticsDB, (upsert_chunked_dataframes db chunks).dim_date =
      chunks.foldl (fun d ch => dateDimStep d ch) db.dim_date := by
  induction chunks with
  | nil => intro db; rfl
  | cons ch rest ih =>
      intro db
      show (upsert_chunked_dataframes (upsert_single_dataframe db ch) rest).dim_date = _
      rw [ih (upsert_single_dataframe db ch)]
      rfl

/-- Customer dimensions of the two modes agree (surrogate ids included)
when rows sharing an `email_hash` carry the same customer attributes. -/
theorem cust_dim_chunks_eq_whole (chunks : List (List LoadRow))
    (hcu : ∀ r ∈ chunks.flatten, ∀ r' ∈ chunks.flatten,
      custKey r = custKey r' → custAttrs r = custAttrs r') :
    (upsert_chunked_dataframes emptyDB chunks).dim_customer =
      (upsert_single_dataframe emptyDB chunks.flatten).dim_customer := by
  rw [upsert_chunked_dim_customer chunks emptyDB,
    (upsert_single_dims emptyDB chunks.flatten).1]
  show chunks.foldl
      (fun (d : Dim String CustomerAttrs) ch => (dedupByKey custKey ch).foldl
        (fun d r => d.upsertRow (custKey r) (custAttrs r)) d)
      (⟨[], 1⟩ : Dim String CustomerAttrs) = _
  rw [dim_chunks_eq_whole custKey custAttrs chunks hcu]
  rfl

/-- Product dimensions of the two modes agree (surrogate ids included)
when rows sharing a `(product_title, product_category)` key carry the
same product attributes. -/
theorem prod_dim_chunks_eq_whole (chunks : List (List LoadRow))
    (hpr : ∀ r ∈ chunks.flatten, ∀ r' ∈ chunks.flatten,
      prodKey r = prodKey r' → prodAttrs r = prodAttrs r') :
    (upsert_chunked_dataframes emptyDB chunks).dim_product =
      (upsert_single_dataframe emptyDB chunks.flatten).dim_product := by
  rw [upsert_chunked_dim_product chunks emptyDB,
    (upsert_single_dims emptyDB chunks.flatten).2.1]
  show chunks.foldl
      (fun (d : Dim (String × String) ProductAttrs) ch => (dedupByKey prodKey ch).foldl
        (fun d r => d.upsertRow (prodKey r) (prodAttrs r)) d)
      (⟨[], 1⟩ : Dim (String × String) ProductAttrs) = _
  rw [dim_chunks_eq_whole prodKey prodAttrs chunks hpr]
  rfl

theorem mem_dedupById (l : List Int) (x : Int) : ∀ seen,
    x ∈ dedupByKeyAux id seen l ↔ (x ∈ l ∧ x ∉ seen) := by
  induction l with
  | nil => intro seen; simp [dedupByKeyAux]
  | cons y ys ih =>
      intro seen
      by_cases hy : y ∈ seen
      · rw [dedupByKeyAux, if_pos (by simpa using hy)]
        rw [ih seen]
        constructor
        · rintro ⟨h1, h2⟩
          exact ⟨List.mem_cons_of_mem _ h1, h2⟩
        · rintro ⟨h1, h2⟩
          rcases List.mem_cons.mp h1 with h | h
          · subst h; exact absurd hy h2
          · exact ⟨h, h2⟩
      · rw [dedupByKeyAux, if_neg (by simpa using hy)]
        constructor
        · intro hmem
          rcases List.mem_cons.mp hmem with h | h
          · subst h; exact ⟨List.mem_cons_self _ _, hy⟩
          · obtain ⟨h1, h2⟩ := (ih (id y :: seen)).mp h
            refine ⟨List.mem_cons_of_mem _ h1, fun hc => h2 ?_⟩
            exact List.mem_cons_of_mem _ hc
        · rintro ⟨h1, h2⟩
          rcases List.mem_cons.mp h1 with h | h
          · subst h; exact List.mem_cons_self _ _
          · by_cases hxy : x = y
            · subst hxy; exact List.mem_cons_self _ _
            · refine List.mem_cons_of_mem _ ((ih (id y :: seen)).mpr ⟨h, ?_⟩)
              intro hc
              rcases List.mem_cons.mp hc with h' | h'
              · exact hxy h'
              · exact h2 h'

section DateDimLemmas

variable {K A : Type} [DecidableEq K]

theorem Dim.idOf_insertIgnore_isSome_iff (d : Dim K A) (k k0 : K) (a : A) :
    ((d.insertIgnore k a).idOf k0).isSome = true ↔
      ((d.idOf k0).isSome = true ∨ k0 = k) := by
  unfold Dim.insertIgnore
  cases hl : lookupAssoc d.rows k with
  | some row =>
      constructor
      · exact Or.inl
      · rintro (h | rfl)
        · exact h
        · simp [Dim.idOf, hl]
  | none =>
      simp only [Dim.idOf]
      rw [lookupAssoc_append]
      cases hl0 : lookupAssoc d.rows k0 with
      | some row0 => simp
      | none =>
          by_cases hk : k = k0
          · subst hk; simp [lookupAssoc]
          · simp [lookupAssoc, hk, Ne.symm hk]

theorem foldl_insertIgnore_presence (g : K → A) (ds : List K) :
    ∀ (d : Dim K A) (k0 : K),
    ((ds.foldl (fun d dt => d.insertIgnore dt (g dt)) d).idOf k0).isSome = true ↔
      ((d.idOf k0).isSome = true ∨ k0 ∈ ds) := by
  induction ds with
  | nil => intro d k0; simp
  | cons dt rest ih =>
      intro d k0
      rw [List.foldl_cons, ih]
      rw [Dim.idOf_insertIgnore_isSome_iff]
      constructor
      · rintro ((h | h) | h)
        · exact Or.inl h
        · subst h; exact Or.inr (List.mem_cons_self _ _)
        · exact Or.inr (List.mem_cons_of_mem _ h)
      · rintro (h | h)
        · exact Or.inl (Or.inl h)
        · rcases List.mem_cons.mp h with h' | h'
          · exact Or.inl (Or.inr h')
          · exact Or.inr h'

theorem foldl_insertIgnore_preserves_binding (g : K → A) (ds : List K) :
    ∀ (d : Dim K A) (k : K) (row : DimRow A),
    lookupAssoc d.rows k = some row →
    lookupAssoc ((ds.foldl (fun d dt => d.insertIgnore dt (g dt)) d).rows) k = some row := by
  induction ds with
  | nil => intro d k row h; exact h
  | cons dt rest ih =>
      intro d k row h
      rw [List.foldl_cons]
      exact ih _ k row (Dim.lookup_insertIgnore_present d dt k (g dt) row h)

/-- Well-formed serial ids: all below the counter and pairwise distinct. -/
def IdsOK (d : Dim K A) : Prop :=
  (∀ p ∈ d.rows, p.2.id < d.nextId) ∧
    d.rows.Pairwise (fun p q => p.2.id ≠ q.2.id)

theorem IdsOK_insertIgnore (d : Dim K A) (k : K) (a : A) (h : IdsOK d) :
    IdsOK (d.insertIgnore k a) := by
  unfold Dim.insertIgnore
  cases hl : lookupAssoc d.rows k with
  | some row => exact h
  | none =>
      show IdsOK (⟨d.rows ++ [(k, ⟨d.nextId, a⟩)], d.nextId + 1⟩ : Dim K A)
      constructor
      · intro p hp
        rcases List.mem_append.mp hp with hm | hm
        · have := h.1 p hm
          show p.2.id < d.nextId + 1
          omega
        · simp only [List.mem_singleton] at hm
          subst hm
          simp
      · rw [List.pairwise_append]
        refine ⟨h.2, List.pairwise_singleton _ _, ?_⟩
        intro p hp q hq
        simp only [List.mem_singleton] at hq
        subst hq
        have := h.1 p hp
        simp only []
        omega

theorem IdsOK_foldl_insertIgnore (g : K → A) (ds : List K) :
    ∀ (d : Dim K A), IdsOK d →
    IdsOK (ds.foldl (fun d dt => d.insertIgnore dt (g dt)) d) := by
  induction ds with
  | nil => intro d h; exact h
  | cons dt rest ih =>
      intro d h
      rw [List.foldl_cons]
      exact ih _ (IdsOK_insertIgnore d dt (g dt) h)

theorem find_by_id_of_lookup (l : List (K × DimRow A))
    (hpw : l.Pairwise (fun p q => p.2.id ≠ q.2.id)) (k : K) (row : DimRow A)
    (h : lookupAssoc l k = some row) :
    l.find? (fun p => decide (p.2.id = row.id)) = some (k, row) := by
  induction l with
  | nil => simp [lookupAssoc] at h
  | cons p rest ih =>
      obtain ⟨k', row'⟩ := p
      by_cases hk : k' = k
      · subst hk
        have hrow : row' = row := by simpa [lookupAssoc] using h
        subst hrow
        simp [List.find?]
      · simp only [lookupAssoc, if_neg hk] at h
        have hmem : (k, row) ∈ rest := mem_of_lookupAssoc rest k row h
        have hne : row'.id ≠ row.id := by
          have := (List.pairwise_cons.mp hpw).1 (k, row) hmem
          exact this
        rw [List.find?]
        have hd : (decide (row'.id = row.id)) = false := by simpa using hne
        rw [hd]
        exact ih (List.pairwise_cons.mp hpw).2 h

end DateDimLemmas

/-- The calendar date whose dimension row carries a given surrogate id
(the reverse direction of the persisted date→id mapping). -/
def dateOfId (d : Dim Int DateAttrs) (i : Int) : Option Int :=
  (d.rows.find? (fun p => decide (p.2.id = i))).map Prod.fst

theorem dateOfId_roundtrip (d : Dim Int DateAttrs) (hids : IdsOK d) (k : Int)
    (row : DimRow DateAttrs) (h : lookupAssoc d.rows k = some row) :
    dateOfId d row.id = some k := by
  unfold dateOfId
  rw [find_by_id_of_lookup d.rows hids.2 k row h]
  rfl

section StabilityLemmas

variable {K A ρ : Type} [DecidableEq K]

theorem foldl_upsertRow_preserves_id (key : ρ → K) (attrs : ρ → A) (l : List ρ) :
    ∀ (d : Dim K A) (k0 : K), (d.idOf k0).isSome = true →
    (l.foldl (fun d r => d.upsertRow (key r) (attrs r)) d).idOf k0 = d.idOf k0 := by
  induction l with
  | nil => intro d k0 _; rfl
  | cons x xs ih =>
      intro d k0 h
      rw [List.foldl_cons, ih _ k0 (Dim.idOf_upsertRow_isSome d _ k0 _ h),
        Dim.idOf_upsertRow_present d _ k0 _ h]

theorem foldl_upsertRow_preserves_isSome (key : ρ → K) (attrs : ρ → A)
    (l : List ρ) (d : Dim K A) (k0 : K) (h : (d.idOf k0).isSome = true) :
    ((l.foldl (fun d r => d.upsertRow (key r) (attrs r)) d).idOf k0).isSome = true := by
  rw [foldl_upsertRow_preserves_id key attrs l d k0 h]
  exact h

theorem foldl_upsertRow_member_present (key : ρ → K) (attrs : ρ → A)
    (l : List ρ) : ∀ (d : Dim K A) (r : ρ), r ∈ l →
    ((l.foldl (fun d r => d.upsertRow (key r) (attrs r)) d).idOf (key r)).isSome
      = true := by
  induction l with
  | nil => intro d r h; cases h
  | cons x xs ih =>
      intro d r h
      rw [List.foldl_cons]
      rcases List.mem_cons.mp h with h' | h'
      · subst h'
        exact foldl_upsertRow_preserves_isSome key attrs xs _ _
          (Dim.idOf_upsertRow_self_isSome d _ _)
      · exact ih _ r h'

theorem dedup_key_cover (key : ρ → K) (l : List ρ) : ∀ (seen : List K) (r : ρ),
    r ∈ l → key r ∉ seen →
    ∃ r' ∈ dedupByKeyAux key seen l, key r' = key r := by
  induction l with
  | nil => intro seen r h _; cases h
  | cons x xs ih =>
      intro seen r h hseen
      rcases List.mem_cons.mp h with h' | h'
      · subst h'
        rw [dedupByKeyAux, if_neg hseen]
        exact ⟨r, List.mem_cons_self _ _, rfl⟩
      · by_cases hx : key x ∈ seen
        · rw [dedupByKeyAux, if_pos hx]
          exact ih seen r h' hseen
        · rw [dedupByKeyAux, if_neg hx]
          by_cases hk : key r = key x
          · exact ⟨x, List.mem_cons_self _ _, hk.symm⟩
          · obtain ⟨r', hr1, hr2⟩ := ih (key x :: seen) r h'
              (by intro hc; rcases List.mem_cons.mp hc with h'' | h''
                  · exact hk h''
                  · exact hseen h'')
            exact ⟨r', List.mem_cons_of_mem _ hr1, hr2⟩

/-- Every row of the batch has its key present after the dedup-and-fold
dimension step. -/
theorem dedupfold_member_present (key : ρ → K) (attrs : ρ → A) (l : List ρ)
    (d : Dim K A) (r : ρ) (h : r ∈ l) :
    (((dedupByKey key l).foldl
      (fun d r => d.upsertRow (key r) (attrs r)) d).idOf (key r)).isSome = true := by
  obtain ⟨r', hr1, hr2⟩ := dedup_key_cover key l [] r h (by simp)
  rw [← hr2]
  exact foldl_upsertRow_member_present key attrs _ d r' hr1

theorem chunksfold_upsertRow_preserves_id (key : ρ → K) (attrs : ρ → A)
    (chunks : List (List ρ)) : ∀ (d : Dim K A) (k0 : K),
    (d.idOf k0).isSome = true →
    (chunks.foldl
      (fun d ch => (dedupByKey key ch).foldl
        (fun d r => d.upsertRow (key r) (attrs r)) d) d).idOf k0 = d.idOf k0 := by
  induction chunks with
  | nil => intro d k0 _; rfl
  | cons ch rest ih =>
      intro d k0 h
      rw [List.foldl_cons, ih _ k0 (foldl_upsertRow_preserves_isSome key attrs _ d k0 h),
        foldl_upsertRow_preserves_id key attrs _ d k0 h]

end StabilityLemmas

theorem mem_datesOf (rows : List LoadRow) (dt : Int) :
    dt ∈ datesOf rows ↔
      dt ∈ rows.map LoadRow.order_date ++ rows.filterMap LoadRow.delivery_date := by
  unfold datesOf dedupByKey
  rw [mem_dedupById _ dt []]
  simp

theorem mem_datesOf_flatten (chunks : List (List LoadRow)) (dt : Int) :
    dt ∈ datesOf chunks.flatten ↔ ∃ ch ∈ chunks, dt ∈ datesOf ch := by
  rw [mem_datesOf]
  constructor
  · intro h
    rcases List.mem_append.mp h with h | h
    · obtain ⟨r, hr, hrd⟩ := List.mem_map.mp h
      obtain ⟨ch, hch, hrch⟩ := List.mem_flatten.mp hr
      exact ⟨ch, hch, (mem_datesOf ch dt).mpr
        (List.mem_append.mpr (Or.inl (List.mem_map.mpr ⟨r, hrch, hrd⟩)))⟩
    · obtain ⟨r, hr, hrd⟩ := List.mem_filterMap.mp h
      obtain ⟨ch, hch, hrch⟩ := List.mem_flatten.mp hr
      exact ⟨ch, hch, (mem_datesOf ch dt).mpr
        (List.mem_append.mpr (Or.inr (List.mem_filterMap.mpr ⟨r, hrch, hrd⟩)))⟩
  · rintro ⟨ch, hch, hd⟩
    rcases List.mem_append.mp ((mem_datesOf ch dt).mp hd) with h | h
    · obtain ⟨r, hr, hrd⟩ := List.mem_map.mp h
      exact List.mem_append.mpr (Or.inl (List.mem_map.mpr
        ⟨r, List.mem_flatten.mpr ⟨ch, hch, hr⟩, hrd⟩))
    · obtain ⟨r, hr, hrd⟩ := List.mem_filterMap.mp h
      exact List.mem_append.mpr (Or.inr (List.mem_filterMap.mpr
        ⟨r, List.mem_flatten.mpr ⟨ch, hch, hr⟩, hrd⟩))

theorem dateDimStep_presence (d : Dim Int DateAttrs) (rows : List LoadRow)
    (k0 : Int) : ((dateDimStep d rows).idOf k0).isSome = true ↔
      ((d.idOf k0).isSome = true ∨ k0 ∈ datesOf rows) :=
  foldl_insertIgnore_presence dateAttrsOf (datesOf rows) d k0

theorem chunked_date_presence (chunks : List (List LoadRow)) :
    ∀ db : AnalyticsDB, ∀ k0 : Int,
    (((upsert_chunked_dataframes db chunks).dim_date.idOf k0).isSome = true) ↔
      ((db.dim_date.idOf k0).isSome = true ∨ ∃ ch ∈ chunks, k0 ∈ datesOf ch) := by
  induction chunks with
  | nil => intro db k0; simp [upsert_chunked_dataframes]
  | cons ch rest ih =>
      intro db k0
      show ((upsert_chunked_dataframes (upsert_single_dataframe db ch) rest).dim_date.idOf
          k0).isSome = true ↔ _
      rw [ih (upsert_single_dataframe db ch)]
      have : (upsert_single_dataframe db ch).dim_date = dateDimStep db.dim_date ch := rfl
      rw [this, dateDimStep_presence]
      constructor
      · rintro ((h | h) | h)
        · exact Or.inl h
        · exact Or.inr ⟨ch, List.mem_cons_self _ _, h⟩
        · obtain ⟨ch', h1, h2⟩ := h
          exact Or.inr ⟨ch', List.mem_cons_of_mem _ h1, h2⟩
      · rintro (h | ⟨ch', h1, h2⟩)
        · exact Or.inl (Or.inl h)
        · rcases List.mem_cons.mp h1 with h' | h'
          · subst h'; exact Or.inl (Or.inr h2)
          · exact Or.inr ⟨ch', h', h2⟩

theorem chunked_date_binding (chunks : List (List LoadRow)) :
    ∀ db : AnalyticsDB, ∀ (k : Int) (row : DimRow DateAttrs),
    lookupAssoc db.dim_date.rows k = some row →
    lookupAssoc (upsert_chunked_dataframes db chunks).dim_date.rows k = some row := by
  induction chunks with
  | nil => intro db k row h; exact h
  | cons ch rest ih =>
      intro db k row h
      exact ih (upsert_single_dataframe db ch) k row
        (foldl_insertIgnore_preserves_binding dateAttrsOf (datesOf ch) db.dim_date k row h)

theorem IdsOK_chunked (chunks : List (List LoadRow)) :
    ∀ db : AnalyticsDB, IdsOK db.dim_date →
    IdsOK (upsert_chunked_dataframes db chunks).dim_date := by
  induction chunks with
  | nil => intro db h; exact h
  | cons ch rest ih =>
      intro db h
      exact ih (upsert_single_dataframe db ch)
        (IdsOK_foldl_insertIgnore dateAttrsOf (datesOf ch) db.dim_date h)

/-- Observable content of a fact row: surrogate date ids are translated
back to the calendar dates they denote in the run's date dimension, so
two runs can be compared modulo date-id numbering. -/
structure FactObs where
  customer_id : Int
  product_id : Int
  order_date : Option Int
  delivery_date : Option Int
  quantity : Int
  discounted_price : ℚ
  original_price : ℚ
  discount_percentage : Int
  profit : ℚ
  data_collected_at : Int
deriving DecidableEq

def factRowObs (dd : Dim Int DateAttrs) (fr : FactRow) : FactObs :=
  ⟨fr.customer_id, fr.product_id, dateOfId dd fr.order_date_id,
   fr.delivery_date_id.bind (dateOfId dd), fr.quantity, fr.discounted_price,
   fr.original_price, fr.discount_percentage, fr.profit, fr.data_collected_at⟩

/-- The observable fact row an input row must produce, given the final
customer and product dimensions. -/
def canonFact (dc : Dim String CustomerAttrs)
    (dp : Dim (String × String) ProductAttrs) (r : LoadRow) : FactObs :=
  ⟨(dc.idOf (custKey r)).getD 0, (dp.idOf (prodKey r)).getD 0, some r.order_date,
   r.delivery_date, r.quantity, r.discounted_price, r.original_price,
   r.discount_percentage, r.profit, r.data_collected_at⟩

theorem map_foldl_upsertAssoc {K B C ρ : Type} [DecidableEq K] (g : B → C)
    (keyf : ρ → K) (valf : ρ → B) (l : List ρ) : ∀ fs : List (K × B),
    (l.foldl (fun fs r => upsertAssoc fs (keyf r) (valf r)) fs).map
        (fun p => (p.1, g p.2)) =
      l.foldl (fun fs r => upsertAssoc fs (keyf r) (g (valf r)))
        (fs.map (fun p => (p.1, g p.2))) := by
  induction l with
  | nil => intro fs; rfl
  | cons r rs ih =>
      intro fs
      rw [List.foldl_cons, List.foldl_cons, ih, map_upsertAssoc]

theorem foldl_congr_mem {α β : Type} (l : List α) (f1 f2 : β → α → β)
    (h : ∀ a ∈ l, ∀ b, f1 b a = f2 b a) : ∀ init, l.foldl f1 init = l.foldl f2 init := by
  induction l with
  | nil => intro init; rfl
  | cons a as ih =>
      intro init
      rw [List.foldl_cons, List.foldl_cons, h a (List.mem_cons_self _ _)]
      exact ih (fun x hx b => h x (List.mem_cons_of_mem _ hx) b) _

theorem DimAttrsF_foldl_insertIgnore {K A : Type} [DecidableEq K] (f : K → A)
    (ds : List K) : ∀ d : Dim K A, DimAttrsF f d →
    DimAttrsF f (ds.foldl (fun d dt => d.insertIgnore dt (f dt)) d) := by
  induction ds with
  | nil => intro d h; exact h
  | cons dt rest ih =>
      intro d h
      rw [List.foldl_cons]
      exact ih _ (DimAttrsF_insertIgnore f d dt h)

theorem DimAttrsF_date_chunked (chunks : List (List LoadRow)) :
    ∀ db : AnalyticsDB, DimAttrsF dateAttrsOf db.dim_date →
    DimAttrsF dateAttrsOf (upsert_chunked_dataframes db chunks).dim_date := by
  induction chunks with
  | nil => intro db h; exact h
  | cons ch rest ih =>
      intro db h
      exact ih (upsert_single_dataframe db ch)
        (DimAttrsF_foldl_insertIgnore dateAttrsOf (datesOf ch) db.dim_date h)

/-- Per-row agreement: the fact row written for `r` while processing its
chunk, observed through the final date dimension, is the canonical
observable fact row of `r`. -/
theorem obs_resolve_eq (db : AnalyticsDB) (ch : List LoadRow)
    (rest : List (List LoadRow)) (hids : IdsOK db.dim_date) (r : LoadRow)
    (hr : r ∈ ch) :
    factRowObs (upsert_chunked_dataframes (upsert_single_dataframe db ch) rest).dim_date
        (resolveFact
          ⟨custDimStep db.dim_customer ch, prodDimStep db.dim_product ch,
            dateDimStep db.dim_date ch, db.fact_sales⟩ r) =
      canonFact
        (upsert_chunked_dataframes (upsert_single_dataframe db ch) rest).dim_customer
        (upsert_chunked_dataframes (upsert_single_dataframe db ch) rest).dim_product
        r := by
  set db1 := upsert_single_dataframe db ch with hdb1
  set F := upsert_chunked_dataframes db1 rest with hF
  have hdc1 : db1.dim_customer = custDimStep db.dim_customer ch := rfl
  have hdp1 : db1.dim_product = prodDimStep db.dim_product ch := rfl
  have hdd1 : db1.dim_date = dateDimStep db.dim_date ch := rfl
  have hids1 : IdsOK db1.dim_date :=
    IdsOK_foldl_insertIgnore dateAttrsOf (datesOf ch) db.dim_date hids
  have hidsF : IdsOK F.dim_date := IdsOK_chunked rest db1 hids1
  -- customer id
  have hcustPres : ((custDimStep db.dim_customer ch).idOf (custKey r)).isSome = true :=
    dedupfold_member_present custKey custAttrs ch db.dim_customer r hr
  have hcustStab : F.dim_customer.idOf (custKey r) =
      (custDimStep db.dim_customer ch).idOf (custKey r) := by
    rw [hF, upsert_chunked_dim_customer rest db1, hdc1]
    exact chunksfold_upsertRow_preserves_id custKey custAttrs rest _ _ hcustPres
  -- product id
  have hprodPres : ((prodDimStep db.dim_product ch).idOf (prodKey r)).isSome = true :=
    dedupfold_member_present prodKey prodAttrs ch db.dim_product r hr
  have hprodStab : F.dim_product.idOf (prodKey r) =
      (prodDimStep db.dim_product ch).idOf (prodKey r) := by
    rw [hF, upsert_chunked_dim_product rest db1, hdp1]
    exact chunksfold_upsertRow_preserves_id prodKey prodAttrs rest _ _ hprodPres
  -- order date
  have hodMem : r.order_date ∈ datesOf ch := by
    rw [mem_datesOf]
    exact List.mem_append.mpr (Or.inl (List.mem_map.mpr ⟨r, hr, rfl⟩))
  have hodPres : ((dateDimStep db.dim_date ch).idOf r.order_date).isSome = true :=
    (dateDimStep_presence db.dim_date ch r.order_date).mpr (Or.inr hodMem)
  obtain ⟨rowOD, hrowOD⟩ : ∃ row,
      lookupAssoc (dateDimStep db.dim_date ch).rows r.order_date = some row := by
    simp only [Dim.idOf] at hodPres
    cases h' : lookupAssoc (dateDimStep db.dim_date ch).rows r.order_date with
    | some row => exact ⟨row, rfl⟩
    | none => rw [h'] at hodPres; simp at hodPres
  have hrowODF : lookupAssoc F.dim_date.rows r.order_date = some rowOD := by
    rw [hF]
    exact chunked_date_binding rest db1 r.order_date rowOD (by rw [hdd1]; exact hrowOD)
  have hodRound : dateOfId F.dim_date rowOD.id = some r.order_date :=
    dateOfId_roundtrip F.dim_date hidsF r.order_date rowOD hrowODF
  -- components assembled
  unfold factRowObs canonFact resolveFact
  dsimp only
  simp only [FactObs.mk.injEq]
  refine ⟨?_, ?_, ?_, ?_, trivial, trivial, trivial, trivial, trivial, trivial⟩
  · rw [hcustStab]
  · rw [hprodStab]
  · have hid : (dateDimStep db.dim_date ch).idOf r.order_date = some rowOD.id := by
      rw [Dim.idOf, hrowOD]
      rfl
    rw [hid]
    show dateOfId F.dim_date rowOD.id = some r.order_date
    exact hodRound
  · cases hdt : r.delivery_date with
    | none => rfl
    | some dt =>
        have hdtMem : dt ∈ datesOf ch := by
          rw [mem_datesOf]
          exact List.mem_append.mpr (Or.inr (List.mem_filterMap.mpr ⟨r, hr, hdt⟩))
        have hdtPres : ((dateDimStep db.dim_date ch).idOf dt).isSome = true :=
          (dateDimStep_presence db.dim_date ch dt).mpr (Or.inr hdtMem)
        obtain ⟨rowDD, hrowDD⟩ : ∃ row,
            lookupAssoc (dateDimStep db.dim_date ch).rows dt = some row := by
          simp only [Dim.idOf] at hdtPres
          cases h' : lookupAssoc (dateDimStep db.dim_date ch).rows dt with
          | some row => exact ⟨row, rfl⟩
          | none => rw [h'] at hdtPres; simp at hdtPres
        have hrowDDF : lookupAssoc F.dim_date.rows dt = some rowDD := by
          rw [hF]
          exact chunked_date_binding rest db1 dt rowDD (by rw [hdd1]; exact hrowDD)
        have hddRound : dateOfId F.dim_date rowDD.id = some dt :=
          dateOfId_roundtrip F.dim_date hidsF dt rowDD hrowDDF
        have hid : (dateDimStep db.dim_date ch).idOf dt = some rowDD.id := by
          rw [Dim.idOf, hrowDD]
          rfl
        show ((some dt).bind (dateDimStep db.dim_date ch).idOf).bind
            (dateOfId F.dim_date) = some dt
        rw [Option.some_bind, hid, Option.some_bind]
        exact hddRound

/-- The observable fact table of a chunked load: exactly the canonical
fold of the batch's rows over the starting facts, keyed by `order_id`
with last-write-wins, referencing the final customer/product ids and
the calendar dates themselves. -/
theorem fact_obs_spec (chunks : List (List LoadRow)) : ∀ db : AnalyticsDB,
    IdsOK db.dim_date →
    (upsert_chunked_dataframes db chunks).fact_sales.map
        (fun p => (p.1,
          factRowObs (upsert_chunked_dataframes db chunks).dim_date p.2)) =
      chunks.flatten.foldl
        (fun fs r => upsertAssoc fs r.order_id
          (canonFact (upsert_chunked_dataframes db chunks).dim_customer
            (upsert_chunked_dataframes db chunks).dim_product r))
        (db.fact_sales.map
          (fun p => (p.1,
            factRowObs (upsert_chunked_dataframes db chunks).dim_date p.2))) := by
  induction chunks with
  | nil => intro db _; rfl
  | cons ch rest ih =>
      intro db hids
      have hids1 : IdsOK (upsert_single_dataframe db ch).dim_date :=
        IdsOK_foldl_insertIgnore dateAttrsOf (datesOf ch) db.dim_date hids
      have hstep := ih (upsert_single_dataframe db ch) hids1
      rw [show upsert_chunked_dataframes db (ch :: rest) =
          upsert_chunked_dataframes (upsert_single_dataframe db ch) rest from rfl,
        show (ch :: rest).flatten = ch ++ rest.flatten from rfl,
        List.foldl_append, hstep]
      have hfact1 : (upsert_single_dataframe db ch).fact_sales =
          ch.foldl
            (fun fs r => upsertAssoc fs r.order_id
              (resolveFact
                ⟨custDimStep db.dim_customer ch, prodDimStep db.dim_product ch,
                  dateDimStep db.dim_date ch, db.fact_sales⟩ r))
            db.fact_sales := rfl
      rw [hfact1,
        map_foldl_upsertAssoc
          (factRowObs (upsert_chunked_dataframes (upsert_single_dataframe db ch)
            rest).dim_date)
          LoadRow.order_id _ ch db.fact_sales]
      have hinner := foldl_congr_mem ch
        (fun fs r => upsertAssoc fs r.order_id
          (factRowObs (upsert_chunked_dataframes (upsert_single_dataframe db ch)
              rest).dim_date
            (resolveFact
              ⟨custDimStep db.dim_customer ch, prodDimStep db.dim_product ch,
                dateDimStep db.dim_date ch, db.fact_sales⟩ r)))
        (fun fs r => upsertAssoc fs r.order_id
          (canonFact
            (upsert_chunked_dataframes (upsert_single_dataframe db ch)
              rest).dim_customer
            (upsert_chunked_dataframes (upsert_single_dataframe db ch)
              rest).dim_product r))
        (fun r hr fs => by
          dsimp only
          rw [obs_resolve_eq db ch rest hids r hr])
        (db.fact_sales.map
          (fun p => (p.1,
            factRowObs (upsert_chunked_dataframes (upsert_single_dataframe db ch)
              rest).dim_date p.2)))
      rw [hinner]

/-- The observable fact table of a whole-batch load. -/
theorem fact_obs_spec_single (db : AnalyticsDB) (rows : List LoadRow)
    (hids : IdsOK db.dim_date) :
    (upsert_single_dataframe db rows).fact_sales.map
        (fun p => (p.1,
          factRowObs (upsert_single_dataframe db rows).dim_date p.2)) =
      rows.foldl
        (fun fs r => upsertAssoc fs r.order_id
          (canonFact (upsert_single_dataframe db rows).dim_customer
            (upsert_single_dataframe db rows).dim_product r))
        (db.fact_sales.map
          (fun p => (p.1,
            factRowObs (upsert_single_dataframe db rows).dim_date p.2))) := by
  have h := fact_obs_spec [rows] db hids
  have hflat : ([rows] : List (List LoadRow)).flatten = rows := by simp
  rw [hflat] at h
  exact h

/-- A transformed row for the chunked-equivalence analysis. -/
def c4RowA : LoadRow where
  order_id := "ORDA000001"
  customer_name := "Alice A"
  customer_email_hash := "h1"
  customer_phone_redacted := "***-***-1234"
  customer_address_redacted := "Address REDACTED"
  product_title := "Widget"
  product_category := "Gadgets"
  product_rating := 4
  is_best_seller := false
  order_date := 20
  delivery_date := some 20
  quantity := 1
  discounted_price := 50
  original_price := 100
  discount_percentage := 50
  profit := 10
  data_collected_at := 20

/-- A second row for the same customer (`email_hash` "h1") carrying a
different `customer_name`. -/
def c4RowB : LoadRow := { c4RowA with order_id := "ORDB000001", customer_name := "Alice B" }

/-- C4 (counterexample): splitting a 2-row batch into 2 chunks does not
produce the same final state as one chunk of 2. Both rows share the
customer key "h1" with different names: the whole batch deduplicates by
`email_hash` keeping the first occurrence, so `dim_customer` ends with
name "Alice A"; chunk 2's upsert hits the `ON CONFLICT DO UPDATE` path
and overwrites the name to "Alice B". -/
theorem c4_chunked_equivalence_counterexample :
    upsert_chunked_dataframes emptyDB [[c4RowA], [c4RowB]] ≠
      upsert_single_dataframe emptyDB [c4RowA, c4RowB] := by
  with_unfolding_all decide

theorem IdsOK_emptyDB : IdsOK emptyDB.dim_date :=
  ⟨fun p hp => (by cases hp), List.Pairwise.nil⟩

/-- C4 (amended): chunk-by-chunk loading and whole-batch loading agree
provided all rows sharing a dimension business key carry identical
dimension attributes — then the customer and product dimensions coincide
exactly (surrogate ids included), the date dimensions hold the same set
of calendar dates with the attributes derived from each date (their
surrogate ids may be assigned in a different order, because the whole
batch collects all order dates before all delivery dates while chunked
processing collects per chunk), and the fact tables coincide once each
fact row's date ids are read back through its own run's date dimension. -/
theorem c4_chunked_equivalence_amended (chunks : List (List LoadRow))
    (hcu : ∀ r ∈ chunks.flatten, ∀ r' ∈ chunks.flatten,
      custKey r = custKey r' → custAttrs r = custAttrs r')
    (hpr : ∀ r ∈ chunks.flatten, ∀ r' ∈ chunks.flatten,
      prodKey r = prodKey r' → prodAttrs r = prodAttrs r') :
    (upsert_chunked_dataframes emptyDB chunks).dim_customer =
      (upsert_single_dataframe emptyDB chunks.flatten).dim_customer ∧
    (upsert_chunked_dataframes emptyDB chunks).dim_product =
      (upsert_single_dataframe emptyDB chunks.flatten).dim_product ∧
    (∀ dt : Int,
      (((upsert_chunked_dataframes emptyDB chunks).dim_date.idOf dt).isSome = true ↔
        ((upsert_single_dataframe emptyDB chunks.flatten).dim_date.idOf dt).isSome
          = true)) ∧
    (∀ (dt : Int) (row : DimRow DateAttrs),
      lookupAssoc (upsert_chunked_dataframes emptyDB chunks).dim_date.rows dt =
        some row → row.attrs = dateAttrsOf dt) ∧
    (∀ (dt : Int) (row : DimRow DateAttrs),
      lookupAssoc (upsert_single_dataframe emptyDB chunks.flatten).dim_date.rows dt =
        some row → row.attrs = dateAttrsOf dt) ∧
    (upsert_chunked_dataframes emptyDB chunks).fact_sales.map
        (fun p => (p.1,
          factRowObs (upsert_chunked_dataframes emptyDB chunks).dim_date p.2)) =
      (upsert_single_dataframe emptyDB chunks.flatten).fact_sales.map
        (fun p => (p.1,
          factRowObs (upsert_single_dataframe emptyDB chunks.flatten).dim_date p.2)) := by
  have hDAempty : DimAttrsF dateAttrsOf emptyDB.dim_date := by
    intro k row h
    simp [emptyDB, lookupAssoc] at h
  have hEmptyPres : ∀ dt : Int, (emptyDB.dim_date.idOf dt).isSome = false := by
    intro dt
    simp [emptyDB, Dim.idOf, lookupAssoc]
  have h1 := cust_dim_chunks_eq_whole chunks hcu
  have h2 := prod_dim_chunks_eq_whole chunks hpr
  refine ⟨h1, h2, ?_, ?_, ?_, ?_⟩
  · intro dt
    rw [chunked_date_presence chunks emptyDB dt,
      show (upsert_single_dataframe emptyDB chunks.flatten).dim_date =
        dateDimStep emptyDB.dim_date chunks.flatten from rfl,
      dateDimStep_presence]
    simp [hEmptyPres dt, mem_datesOf_flatten]
  · intro dt row h
    exact DimAttrsF_date_chunked chunks emptyDB hDAempty dt row h
  · intro dt row h
    have hw : (upsert_single_dataframe emptyDB chunks.flatten).dim_date =
        dateDimStep emptyDB.dim_date chunks.flatten := rfl
    rw [hw] at h
    exact DimAttrsF_foldl_insertIgnore dateAttrsOf (datesOf chunks.flatten)
      emptyDB.dim_date hDAempty dt row h
  · have hsc := fact_obs_spec chunks emptyDB IdsOK_emptyDB
    have hsw := fact_obs_spec_single emptyDB chunks.flatten IdsOK_emptyDB
    have hbase1 : emptyDB.fact_sales.map
        (fun p => (p.1,
          factRowObs (upsert_chunked_dataframes emptyDB chunks).dim_date p.2)) =
        ([] : List (String × FactObs)) := rfl
    have hbase2 : emptyDB.fact_sales.map
        (fun p => (p.1,
          factRowObs (upsert_single_dataframe emptyDB chunks.flatten).dim_date p.2)) =
        ([] : List (String × FactObs)) := rfl
    rw [hbase1] at hsc
    rw [hbase2] at hsw
    rw [h1, h2] at hsc
    exact hsc.trans hsw.symm

/-- A third row: same customer and product as `c4RowA` with identical
attributes, a different order id. -/
def c4RowC : LoadRow := { c4RowA with order_id := "ORDC000001" }

/-- Witness for the amended C4 at a concrete 2-chunk batch with
consistent dimension attributes: the customer dimensions of the two
modes coincide and the observable fact tables coincide. -/
theorem c4_chunked_equivalence_amended_witness :
    (upsert_chunked_dataframes emptyDB [[c4RowA], [c4RowC]]).dim_customer =
      (upsert_single_dataframe emptyDB [c4RowA, c4RowC]).dim_customer ∧
    (upsert_chunked_dataframes emptyDB [[c4RowA], [c4RowC]]).fact_sales.map
        (fun p => (p.1,
          factRowObs (upsert_chunked_dataframes emptyDB [[c4RowA], [c4RowC]]).dim_date
            p.2)) =
      (upsert_single_dataframe emptyDB [c4RowA, c4RowC]).fact_sales.map
        (fun p => (p.1,
          factRowObs (upsert_single_dataframe emptyDB [c4RowA, c4RowC]).dim_date
            p.2)) := by
  have h := c4_chunked_equivalence_amended [[c4RowA], [c4RowC]]
    (by with_unfolding_all decide) (by with_unfolding_all decide)
  have hflat : ([[c4RowA], [c4RowC]] : List (List LoadRow)).flatten =
      [c4RowA, c4RowC] := rfl
  rw [hflat] at h
  exact ⟨h.1, h.2.2.2.2.2⟩

end MiniDataPlatform
